import Mathlib

/-!
Page navigator of the birthday card (`src/script.js`).

A shallow embedding of the page-turning state machine of `script.js`:
`initializePages`, `goToPage`, `nextPage`, `prevPage`, `updateDisplay`, the
callbacks that `goToPage` hands to `setTimeout`, and the `touchend` and `click`
handlers of the book container.

Modelling decisions.

* A `.card-page` element is the record `Page` of the four classes the script
  toggles on it (`active`, `prev`, `turning-forward`, `turning-backward`) and of
  its `style.zIndex`.  `pages` is the static `NodeList` of `querySelectorAll`,
  a list whose length never changes; `totalPages` is its length.
* `currentPage` and the argument of `goToPage` are integers (`Int`), as the
  script compares them with `0` and subtracts `1`.  `pages[i]` is `elemAt`,
  which is `none` (JavaScript `undefined`) outside `0 .. length-1`.  Touching
  `.classList` of `undefined` throws a `TypeError` that ends the running handler
  and keeps the writes made before it; `goToPage` below does exactly that.
* `setTimeout` is a clock `now` (milliseconds) and a queue `timers` of pending
  callbacks kept in firing order (earliest due time first, first scheduled first
  among equals).  `fire` runs the callback at the head of the queue, moving the
  clock to its due time when that lies ahead.  Handlers may run at any time, also
  when a timer is overdue (`Event.elapse` lets time pass without a firing).
* Coordinates of touch and mouse events and the geometry of the book are finite
  IEEE 754 doubles, given by their exact rational values (`ℚ`); the arithmetic
  of the handlers rounds every result to the nearest double (`round64`).
* The markup (`index.html`) is an input of the script: the classes
  the page elements carry before the script runs, whether the `instruction`
  element exists and whether `navigator.vibrate` exists are parameters.
* Particles, the swipe hint, the entrance animation, image preloading and the
  body of `playPageSound` share no state with the navigator; `playPageSound` and
  `navigator.vibrate` are recorded as entries of the `effects` trace.
-/

namespace BirthdayCard

/-! ## Data model -/

/-- The classes of a page element that the script reads or writes. -/
inductive Cls
  | active
  | prev
  | turningForward
  | turningBackward
deriving DecidableEq, Repr

/-- A `.card-page` element: membership of its `classList` for the four classes
of `Cls`, and its `style.zIndex`. -/
structure Page where
  active : Bool
  prev : Bool
  turningForward : Bool
  turningBackward : Bool
  zIndex : Int
deriving DecidableEq, Repr

/-- The call `page.classList.add(c)`. -/
def Page.add (p : Page) : Cls → Page
  | .active => { p with active := true }
  | .prev => { p with prev := true }
  | .turningForward => { p with turningForward := true }
  | .turningBackward => { p with turningBackward := true }

/-- The call `page.classList.remove(c)`. -/
def Page.remove (p : Page) : Cls → Page
  | .active => { p with active := false }
  | .prev => { p with prev := false }
  | .turningForward => { p with turningForward := false }
  | .turningBackward => { p with turningBackward := false }

/-- Visual state `Active` of the specification: the element carries `active`. -/
def Page.isActive (p : Page) : Prop := p.active = true

/-- Visual state `Behind`: class `prev`, not `active`, no turning class. -/
def Page.isBehind (p : Page) : Prop :=
  p.prev = true ∧ p.active = false ∧ p.turningForward = false ∧ p.turningBackward = false

/-- Visual state `Idle`: none of the four classes. -/
def Page.isIdle (p : Page) : Prop :=
  p.active = false ∧ p.prev = false ∧ p.turningForward = false ∧ p.turningBackward = false

/-- The page carries `active` and none of the other three classes. -/
def Page.isActiveOnly (p : Page) : Prop :=
  p.active = true ∧ p.prev = false ∧ p.turningForward = false ∧ p.turningBackward = false

/-- The page carries a turning class. -/
def Page.isTurning (p : Page) : Prop :=
  p.turningForward = true ∨ p.turningBackward = true

instance (p : Page) : Decidable p.isActive := by unfold Page.isActive; infer_instance
instance (p : Page) : Decidable p.isBehind := by unfold Page.isBehind; infer_instance
instance (p : Page) : Decidable p.isIdle := by unfold Page.isIdle; infer_instance
instance (p : Page) : Decidable p.isActiveOnly := by unfold Page.isActiveOnly; infer_instance
instance (p : Page) : Decidable p.isTurning := by unfold Page.isTurning; infer_instance

/-- The inline style of the `instruction` element: `faded` once `opacity` was
set to `0`, `hidden` once `display` was set to `none`. -/
structure Instruction where
  faded : Bool
  hidden : Bool
deriving DecidableEq, Repr

/-- The callbacks handed to `setTimeout` inside `goToPage`.  The page elements a
closure captured are named by their positions in `pages`. -/
inductive Callback
  /-- Lines 59-63, forward flip: `currentPageEl`, `targetPageEl`. -/
  | showTarget (cur target : Nat)
  /-- Lines 74-77, backward flip: `prevPage`. -/
  | showPrev (prevIdx : Nat)
  /-- Lines 82-109, reconciliation: the captured `pageIndex`. -/
  | reconcile (pageIndex : Int)
  /-- Lines 105-107: hide the instruction element. -/
  | hideInstruction
deriving DecidableEq, Repr

/-- A pending `setTimeout` callback with its due time in milliseconds. -/
structure Timer where
  due : Nat
  callback : Callback
deriving DecidableEq, Repr

/-- Side effects leaving the page: `navigator.vibrate(ms)` and `playPageSound()`. -/
inductive Effect
  | vibrate (ms : Nat)
  | pageSound
deriving DecidableEq, Repr

/-- The state of the script: the closure variables of the `DOMContentLoaded`
handler, the DOM properties it writes, the timer queue and the clock. -/
structure State where
  /-- The page elements (`pages`). -/
  pages : List Page
  /-- The variable `currentPage`. -/
  currentPage : Int
  /-- The variable `isAnimating`. -/
  isAnimating : Bool
  /-- Pending `setTimeout` callbacks in firing order. -/
  timers : List Timer
  /-- The clock, in milliseconds. -/
  now : Nat
  /-- The text `currentPageSpan.textContent`. -/
  indicator : Int
  /-- The flag `prevBtn.disabled`. -/
  prevDisabled : Bool
  /-- The flag `nextBtn.disabled`. -/
  nextDisabled : Bool
  /-- The page number in the `aria-label` of `prevBtn`. -/
  prevAria : Int
  /-- The page number in the `aria-label` of `nextBtn`. -/
  nextAria : Int
  /-- The `instruction` element, `none` when `getElementById` found none. -/
  instruction : Option Instruction
  /-- Whether `navigator.vibrate` is defined. -/
  canVibrate : Bool
  /-- Trace of the external side effects fired so far. -/
  effects : List Effect
deriving DecidableEq, Repr

/-- The constant `totalPages = pages.length`. -/
def State.totalPages (s : State) : Int := (s.pages.length : Int)

/-- The constant `flipDuration`. -/
def flipDuration : Nat := 600

/-! ## DOM helpers -/

/-- The lookup `pages[i]` for an integer `i`: the position of the element, or `none` where
JavaScript yields `undefined`. -/
def elemAt (pages : List Page) (i : Int) : Option Nat :=
  if 0 ≤ i ∧ i < (pages.length : Int) then some i.toNat else none

/-- Apply a `classList` update to the element at position `i`. -/
def updatePage (f : Page → Page) : List Page → Nat → List Page
  | [], _ => []
  | p :: ps, 0 => f p :: ps
  | p :: ps, i + 1 => p :: updatePage f ps i

/-- Insert a timer into the queue: behind every timer that is due no later. -/
def insertTimer (t : Timer) : List Timer → List Timer
  | [] => [t]
  | x :: xs => if t.due < x.due then t :: x :: xs else x :: insertTimer t xs

/-- The call `setTimeout(callback, delay)`. -/
def setTimeout (s : State) (cb : Callback) (delay : Nat) : State :=
  { s with timers := insertTimer ⟨s.now + delay, cb⟩ s.timers }

/-! ## The script -/

/-- One iteration of the `forEach` of `initializePages` (lines 31-39). -/
def initializePage (total : Nat) (index : Nat) (page : Page) : Page :=
  let page := if index = 0 then page.add .active
              else (page.remove .active).remove .prev
  { page with zIndex := (total : Int) - (index : Int) }

/-- The `forEach` of `initializePages`, from position `index` on. -/
def initializeFrom (total : Nat) : Nat → List Page → List Page
  | _, [] => []
  | index, page :: rest =>
      initializePage total index page :: initializeFrom total (index + 1) rest

/-- The function `initializePages()` (lines 30-40). -/
def initializePages (pages : List Page) : List Page :=
  initializeFrom pages.length 0 pages

/-- The function `updateDisplay()` (lines 131-142). -/
def updateDisplay (s : State) : State :=
  { s with
    indicator := s.currentPage + 1
    prevDisabled := decide (s.currentPage = 0)
    nextDisabled := decide (s.currentPage = s.totalPages - 1)
    prevAria := s.currentPage
    nextAria := s.currentPage + 2 }

/-- One iteration of the `forEach` of the reconciliation callback (lines 86-97). -/
def reconcilePage (currentPage : Int) (idx : Nat) (page : Page) : Page :=
  let page := (page.remove .turningForward).remove .turningBackward
  if (idx : Int) < currentPage then (page.remove .active).add .prev
  else if (idx : Int) = currentPage then (page.remove .prev).add .active
  else (page.remove .active).remove .prev

/-- The `forEach` of the reconciliation callback, from position `idx` on. -/
def reconcileFrom (currentPage : Int) : Nat → List Page → List Page
  | _, [] => []
  | idx, page :: rest =>
      reconcilePage currentPage idx page :: reconcileFrom currentPage (idx + 1) rest

/-- The reconciliation pass over all pages (lines 86-97). -/
def reconcilePages (currentPage : Int) (pages : List Page) : List Page :=
  reconcileFrom currentPage 0 pages

/-- The tail of `goToPage` shared by both directions (lines 82-116): schedule the
reconciliation, then the haptic pulse and the page sound. -/
def finishGoTo (s : State) (pageIndex : Int) : State :=
  let s := setTimeout s (.reconcile pageIndex) (flipDuration + 50)
  let s := if s.canVibrate then { s with effects := s.effects ++ [.vibrate 10] } else s
  { s with effects := s.effects ++ [.pageSound] }

/-- The function `goToPage(pageIndex)` (lines 43-117). -/
def goToPage (s : State) (pageIndex : Int) : State :=
  if pageIndex < 0 ∨ pageIndex ≥ s.totalPages ∨ s.isAnimating = true then s
  else if pageIndex = s.currentPage then s
  else
    let s := { s with isAnimating := true }
    if pageIndex > s.currentPage then
      -- isForward
      match elemAt s.pages s.currentPage with
      | none => s -- TypeError on `currentPageEl.classList`
      | some cur =>
          let pages := updatePage (fun p => (p.remove .active).add .turningForward) s.pages cur
          let s := { s with pages := pages }
          let s := setTimeout s (.showTarget cur pageIndex.toNat) flipDuration
          finishGoTo s pageIndex
    else
      match elemAt s.pages (s.currentPage - 1) with
      | some pv =>
          let pages := updatePage (fun p => (p.remove .prev).add .turningBackward) s.pages pv
          let s := { s with pages := pages }
          match elemAt s.pages s.currentPage with
          | none => s -- TypeError on `currentPageEl.classList`
          | some cur =>
              let pages := updatePage (fun p => p.remove .active) s.pages cur
              let s := { s with pages := pages }
              let s := setTimeout s (.showPrev pv) flipDuration
              finishGoTo s pageIndex
      | none => finishGoTo s pageIndex

/-- The function `nextPage()` (lines 119-123). -/
def nextPage (s : State) : State :=
  if s.currentPage < s.totalPages - 1 ∧ s.isAnimating = false then
    goToPage s (s.currentPage + 1)
  else s

/-- The function `prevPage()` (lines 125-129). -/
def prevPage (s : State) : State :=
  if s.currentPage > 0 ∧ s.isAnimating = false then
    goToPage s (s.currentPage - 1)
  else s

/-- The body of a `setTimeout` callback. -/
def runCallback (s : State) : Callback → State
  | .showTarget cur target =>
      let pages := updatePage (fun p => (p.remove .turningForward).add .prev) s.pages cur
      let pages := updatePage (fun p => p.add .active) pages target
      { s with pages := pages }
  | .showPrev pv =>
      let pages := updatePage (fun p => (p.remove .turningBackward).add .active) s.pages pv
      { s with pages := pages }
  | .reconcile pageIndex =>
      let s := { s with currentPage := pageIndex }
      let s := { s with pages := reconcilePages s.currentPage s.pages }
      let s := updateDisplay s
      let s := { s with isAnimating := false }
      if s.currentPage > 0 then
        match s.instruction with
        | some ins =>
            let s := { s with instruction := some { ins with faded := true } }
            setTimeout s .hideInstruction 500
        | none => s
      else s
  | .hideInstruction =>
      match s.instruction with
      | some ins => { s with instruction := some { ins with hidden := true } }
      | none => s

/-- The earliest pending timer fires. -/
def fire (s : State) : State :=
  match s.timers with
  | [] => s
  | t :: rest => runCallback { s with timers := rest, now := max s.now t.due } t.callback

/-- The state after the `DOMContentLoaded` handler has run (lines 17-26), for the
given markup classes of the pages, `instruction` element and `navigator.vibrate`. -/
def initialState (markup : List Page) (instruction : Option Instruction)
    (canVibrate : Bool) : State :=
  updateDisplay
    { pages := initializePages markup
      currentPage := 0
      isAnimating := false
      timers := []
      now := 0
      indicator := 0
      prevDisabled := false
      nextDisabled := false
      prevAria := 0
      nextAria := 0
      instruction := instruction
      canVibrate := canVibrate
      effects := [] }

/-! ## Events and runs -/

/-- What can happen to the navigator: a call of one of its three operations, the
firing of the earliest pending timer, or time passing. -/
inductive Event
  | goTo (target : Int)
  | next
  | previous
  | fire
  | elapse (ms : Nat)
deriving DecidableEq, Repr

/-- The effect of one event. -/
def step (s : State) : Event → State
  | .goTo t => goToPage s t
  | .next => nextPage s
  | .previous => prevPage s
  | .fire => fire s
  | .elapse ms => { s with now := s.now + ms }

/-- The effect of a sequence of events. -/
def run (s : State) (es : List Event) : State := es.foldl step s

/-- The event is a call of `goToPage`, `nextPage` or `prevPage`. -/
def Event.isCall : Event → Bool
  | .goTo _ => true
  | .next => true
  | .previous => true
  | _ => false

/-- The timer that fires next is a reconciliation. -/
def reconcileDue (s : State) : Bool :=
  match s.timers with
  | ⟨_, .reconcile _⟩ :: _ => true
  | _ => false

/-- The event fires a reconciliation timer in state `s`. -/
def firesReconcile (s : State) : Event → Bool
  | .fire => reconcileDue s
  | _ => false

/-- No step of the run of `es` from `s` fires a reconciliation timer. -/
def midFlight (s : State) : List Event → Bool
  | [] => true
  | e :: es => !firesReconcile s e && midFlight (step s e) es

/-- Fire pending timers, earliest first, until `isAnimating` is cleared; at most
`fuel` firings. -/
def fireUntilSettled : Nat → State → State
  | 0, s => s
  | fuel + 1, s => if s.isAnimating = true then fireUntilSettled fuel (fire s) else s

/-- Let the timers of the running transition fire: every pending timer up to and
including its reconciliation. -/
def settle (s : State) : State := fireUntilSettled s.timers.length s

/-- Modelled from the spec: the markup (`index.html`) is missing from the sources.
The data model has every page before the current one Behind and every page after
it Idle whenever nothing is animating, start-up included; so in the markup no
page carries a turning class and the first page carries no `prev` (the classes
that `initializePages` does not clear). -/
def CleanMarkup : List Page → Prop
  | [] => True
  | p :: ps => p.prev = false ∧ ∀ q ∈ p :: ps, q.turningForward = false ∧ q.turningBackward = false

instance : DecidablePred CleanMarkup := fun m =>
  match m with
  | [] => isTrue trivial
  | p :: ps => by unfold CleanMarkup; infer_instance

/-- The events that are not calls of the navigator. -/
def withoutCalls (es : List Event) : List Event := es.filter (fun e => !e.isCall)

/-- A page of the markup with none of the four classes. -/
def blankPage : Page := ⟨false, false, false, false, 0⟩

/-! ## JavaScript numbers

The coordinates of touch and mouse events and the geometry of the book are finite
IEEE 754 doubles, given by their exact rational values.  Every arithmetic
operation of the handlers rounds its exact result to the nearest double, ties to
even, with gradual underflow and overflow to infinity.  The handlers subtract
finite doubles, divide by `3`, multiply by `2`, take `Math.abs` and compare; from
finite operands none of these yields `NaN`. -/

/-- A JavaScript number other than `NaN`: a finite value or one of the two
infinities.  The two zeros are not told apart (no operation of the script
does). -/
inductive JSNum
  | fin (q : ℚ)
  | posInf
  | negInf
deriving DecidableEq, Repr

/-- The comparison `x < y` of JavaScript numbers. -/
def JSNum.lt : JSNum → JSNum → Bool
  | .fin a, .fin b => decide (a < b)
  | .fin _, .posInf => true
  | .negInf, .fin _ => true
  | .negInf, .posInf => true
  | _, _ => false

instance : LT JSNum := ⟨fun x y => JSNum.lt x y = true⟩

instance : LE JSNum := ⟨fun x y => JSNum.lt y x = false⟩

instance (x y : JSNum) : Decidable (x < y) := by
  show Decidable (JSNum.lt x y = true); infer_instance

instance (x y : JSNum) : Decidable (x ≤ y) := by
  show Decidable (JSNum.lt y x = false); infer_instance

/-- The function `Math.abs`. -/
def JSNum.abs : JSNum → JSNum
  | .fin q => .fin |q|
  | _ => .posInf

/-- Rounding of a rational to the nearest integer, ties to the even one. -/
def roundHalfEven (x : ℚ) : Int :=
  if x - ⌊x⌋ < 1 / 2 then ⌊x⌋
  else if 1 / 2 < x - ⌊x⌋ then ⌊x⌋ + 1
  else if ⌊x⌋ % 2 = 0 then ⌊x⌋
  else ⌊x⌋ + 1

/-- The binary exponent that fixes the spacing of the doubles around `q`: the
`e` with `2 ^ e ≤ |q| < 2 ^ (e + 1)`, and `-1022` throughout the subnormal
range. -/
def binade (q : ℚ) : Int := max (Int.log 2 |q|) (-1022)

/-- The spacing of the doubles around `q` (53 significant bits). -/
def ulp (q : ℚ) : ℚ := (2 : ℚ) ^ (binade q - 52)

/-- The IEEE 754 binary64 value of an exact result `q`: round to nearest, ties
to even, overflow to infinity. -/
def round64 (q : ℚ) : JSNum :=
  let r : ℚ := (roundHalfEven (q / ulp q) : ℚ) * ulp q
  if (2 : ℚ) ^ (1024 : Nat) ≤ r then .posInf
  else if r ≤ -(2 : ℚ) ^ (1024 : Nat) then .negInf
  else .fin r

/-- The difference `a - b` of two finite doubles. -/
def minus (a b : ℚ) : JSNum := round64 (a - b)

/-- The quotient `a / c` of a finite double by a nonzero finite constant. -/
def divide (a c : ℚ) : JSNum := round64 (a / c)

/-- The product `x * c` of a number with a positive finite constant. -/
def JSNum.times (x : JSNum) (c : ℚ) : JSNum :=
  match x with
  | .fin q => round64 (q * c)
  | .posInf => .posInf
  | .negInf => .negInf

/-! ## Input adapters of the book container -/

/-- A call of `nextPage()` or `prevPage()` made by an input adapter. -/
inductive NavCall
  | next
  | previous
deriving DecidableEq, Repr

/-- The navigator together with the variables of the touch handlers
(`touchStartX`, `touchStartY`, `isSwiping`) and the trace of the navigation calls
the adapters have made. -/
structure App where
  nav : State
  touchStartX : ℚ
  touchStartY : ℚ
  isSwiping : Bool
  navCalls : List NavCall

/-- An adapter calls `nextPage()`. -/
def App.callNext (a : App) : App :=
  { a with nav := nextPage a.nav, navCalls := a.navCalls ++ [.next] }

/-- An adapter calls `prevPage()`. -/
def App.callPrev (a : App) : App :=
  { a with nav := prevPage a.nav, navCalls := a.navCalls ++ [.previous] }

/-- The constant `swipeThreshold`. -/
def swipeThreshold : ℚ := 40

/-- The `touchstart` handler (lines 173-178), for the touch at `(screenX, screenY)`. -/
def touchstart (a : App) (screenX screenY : ℚ) : App :=
  if a.nav.isAnimating = true then a
  else { a with touchStartX := screenX, touchStartY := screenY, isSwiping := true }

/-- The `touchend` handler (lines 195-213), for the touch at `(screenX, screenY)`. -/
def touchend (a : App) (screenX screenY : ℚ) : App :=
  if a.isSwiping = false ∨ a.nav.isAnimating = true then a
  else
    let a := { a with isSwiping := false }
    let diffX := minus a.touchStartX screenX
    let diffY := (minus a.touchStartY screenY).abs
    if diffX.abs > JSNum.fin swipeThreshold ∧ diffX.abs > diffY then
      if diffX > JSNum.fin 0 then a.callNext else a.callPrev
    else a

/-- The `click` handler of the book (lines 216-232): `onControl` is whether
`e.target.closest('button, a, input')` found an element, `rectLeft` and
`rectWidth` are `left` and `width` of `book.getBoundingClientRect()`. -/
def click (a : App) (onControl : Bool) (clientX rectLeft rectWidth : ℚ) : App :=
  if a.nav.isAnimating = true then a
  else if onControl = true then a
  else
    let clickX := minus clientX rectLeft
    let thirdWidth := divide rectWidth 3
    if clickX > thirdWidth.times 2 then a.callNext
    else if clickX < thirdWidth then a.callPrev
    else a

/-! ## Auxiliary definitions for the proofs -/

/-- The callback belongs to a page transition (it is not the hiding of the
instruction element). -/
def Callback.isNav : Callback → Bool
  | .hideInstruction => false
  | _ => true

/-- The callback is one of the two flip callbacks. -/
def Callback.isFlip : Callback → Bool
  | .showTarget _ _ => true
  | .showPrev _ => true
  | _ => false

/-- The pending callbacks of page transitions, in firing order. -/
def navCallbacks (q : List Timer) : List Callback :=
  (q.map Timer.callback).filter Callback.isNav

/-- The pending transition callbacks are those of one transition towards `t`:
its reconciliation, preceded by its flip callback when that has not fired. -/
def InFlight (q : List Timer) (t : Int) : Prop :=
  navCallbacks q = [.reconcile t] ∨
    ∃ f : Callback, f.isFlip = true ∧ navCallbacks q = [f, .reconcile t]

/-- The page indicator, the two buttons and their labels show `currentPage`. -/
def DisplaySynced (s : State) : Prop :=
  s.indicator = s.currentPage + 1 ∧
  s.prevDisabled = decide (s.currentPage = 0) ∧
  s.nextDisabled = decide (s.currentPage = s.totalPages - 1) ∧
  s.prevAria = s.currentPage ∧
  s.nextAria = s.currentPage + 2

/-- Invariant of every reachable state: `currentPage` is a valid position, the
display shows it, and the pending transition callbacks are none when settled and
those of exactly one transition while animating. -/
structure Inv (s : State) : Prop where
  lower : 0 ≤ s.currentPage
  upper : s.currentPage < s.totalPages
  display : DisplaySynced s
  settled : s.isAnimating = false → navCallbacks s.timers = []
  animating : s.isAnimating = true →
    ∃ t : Int, 0 ≤ t ∧ t < s.totalPages ∧ InFlight s.timers t

/-- Invariant of the settled states: the classes of every page are what the
reconciliation pass computes from `currentPage`. -/
def PagesSettled (s : State) : Prop :=
  s.isAnimating = false → reconcilePages s.currentPage s.pages = s.pages

/-! ## Sample data for the scenarios -/

/-- A markup of five pages without state classes. -/
def fivePages : List Page := [blankPage, blankPage, blankPage, blankPage, blankPage]

/-- The card of five pages right after start-up. -/
def fiveStart : State := initialState fivePages (some ⟨false, false⟩) true

/-- The five-page card at start-up with a touch being tracked from `(100, 50)`
and no navigation call made so far. -/
def fiveTouched : App :=
  { nav := fiveStart, touchStartX := 100, touchStartY := 50, isSwiping := true, navCalls := [] }

/-- The double nearest to `121/3`. -/
def near121Thirds : ℚ := 5676412030331563 / 2 ^ 47

/-- The double nearest to `1/3`. -/
def nearOneThird : ℚ := 6004799503160661 / 2 ^ 54

/-- The double nearest to `340/3`; it lies below `340/3`. -/
def near340Thirds : ℚ := 7975124340135253 / 2 ^ 46

/-- The double nearest to `100/3`; it lies above `100/3`. -/
def near100Thirds : ℚ := 4691249611844267 / 2 ^ 47

/-- The five-page card at start-up with a touch being tracked from
`(near121Thirds, 0)` and no navigation call made so far. -/
def fiveProbed : App :=
  { nav := fiveStart, touchStartX := near121Thirds, touchStartY := 0, isSwiping := true,
    navCalls := [] }

/-! ## Lists of pages -/

theorem updatePage_length (f : Page → Page) (ps : List Page) (i : Nat) :
    (updatePage f ps i).length = ps.length := by
  induction ps generalizing i with
  | nil => rfl
  | cons p ps ih =>
    cases i with
    | zero => rfl
    | succ i => simp [updatePage, ih]

theorem updatePage_zIndex (f : Page → Page) (hf : ∀ p, (f p).zIndex = p.zIndex)
    (ps : List Page) (i : Nat) :
    (updatePage f ps i).map Page.zIndex = ps.map Page.zIndex := by
  induction ps generalizing i with
  | nil => rfl
  | cons p ps ih =>
    cases i with
    | zero => simp [updatePage, hf]
    | succ i => simp [updatePage, ih]

theorem reconcilePage_congr (c : Int) (i : Nat) (p q : Page) (h : p.zIndex = q.zIndex) :
    reconcilePage c i p = reconcilePage c i q := by
  cases p; cases q
  simp only at h
  subst h
  simp only [reconcilePage, Page.remove, Page.add]

theorem reconcilePage_zIndex (c : Int) (i : Nat) (p : Page) :
    (reconcilePage c i p).zIndex = p.zIndex := by
  unfold reconcilePage
  split_ifs <;> rfl

theorem reconcileFrom_congr (c : Int) (k : Nat) (ps qs : List Page)
    (h : ps.map Page.zIndex = qs.map Page.zIndex) :
    reconcileFrom c k ps = reconcileFrom c k qs := by
  induction ps generalizing k qs with
  | nil =>
    cases qs with
    | nil => rfl
    | cons q qs => simp at h
  | cons p ps ih =>
    cases qs with
    | nil => simp at h
    | cons q qs =>
      simp only [List.map_cons, List.cons.injEq] at h
      simp only [reconcileFrom, reconcilePage_congr c k p q h.1, ih (k + 1) qs h.2]

theorem reconcileFrom_zIndex (c : Int) (k : Nat) (ps : List Page) :
    (reconcileFrom c k ps).map Page.zIndex = ps.map Page.zIndex := by
  induction ps generalizing k with
  | nil => rfl
  | cons p ps ih => simp [reconcileFrom, reconcilePage_zIndex, ih]

theorem reconcileFrom_length (c : Int) (k : Nat) (ps : List Page) :
    (reconcileFrom c k ps).length = ps.length := by
  induction ps generalizing k with
  | nil => rfl
  | cons p ps ih => simp [reconcileFrom, ih]

theorem reconcilePages_length (c : Int) (ps : List Page) :
    (reconcilePages c ps).length = ps.length :=
  reconcileFrom_length c 0 ps

theorem reconcilePages_congr (c : Int) (ps qs : List Page)
    (h : ps.map Page.zIndex = qs.map Page.zIndex) :
    reconcilePages c ps = reconcilePages c qs :=
  reconcileFrom_congr c 0 ps qs h

theorem reconcilePages_zIndex (c : Int) (ps : List Page) :
    (reconcilePages c ps).map Page.zIndex = ps.map Page.zIndex :=
  reconcileFrom_zIndex c 0 ps

theorem reconcileFrom_getElem? (c : Int) (k : Nat) (ps : List Page) (i : Nat) :
    (reconcileFrom c k ps)[i]? = (ps[i]?).map (reconcilePage c (k + i)) := by
  induction ps generalizing k i with
  | nil => simp [reconcileFrom]
  | cons p ps ih =>
    cases i with
    | zero => simp [reconcileFrom]
    | succ i =>
      simp only [reconcileFrom, List.getElem?_cons_succ, ih]
      have h : k + 1 + i = k + (i + 1) := by omega
      rw [h]

theorem reconcilePages_getElem? (c : Int) (ps : List Page) (i : Nat) :
    (reconcilePages c ps)[i]? = (ps[i]?).map (reconcilePage c i) := by
  simp [reconcilePages, reconcileFrom_getElem?]

theorem initializeFrom_length (n k : Nat) (ps : List Page) :
    (initializeFrom n k ps).length = ps.length := by
  induction ps generalizing k with
  | nil => rfl
  | cons p ps ih => simp [initializeFrom, ih]

theorem initializePages_length (ps : List Page) :
    (initializePages ps).length = ps.length :=
  initializeFrom_length _ 0 ps

/-! ## The timer queue -/

theorem insertTimer_length (t : Timer) (q : List Timer) :
    (insertTimer t q).length = q.length + 1 := by
  induction q with
  | nil => rfl
  | cons x xs ih =>
    unfold insertTimer
    split_ifs <;> simp [ih]

theorem navCallbacks_cons (x : Timer) (q : List Timer) :
    navCallbacks (x :: q) =
      if x.callback.isNav = true then x.callback :: navCallbacks q else navCallbacks q := by
  unfold navCallbacks
  simp only [List.map_cons, List.filter_cons]

theorem navCallbacks_insert_other (t : Timer) (ht : t.callback.isNav = false)
    (q : List Timer) : navCallbacks (insertTimer t q) = navCallbacks q := by
  induction q with
  | nil => simp [insertTimer, navCallbacks, ht]
  | cons x xs ih =>
    unfold insertTimer
    split_ifs
    · rw [navCallbacks_cons t, ht]; simp
    · rw [navCallbacks_cons, navCallbacks_cons, ih]

theorem navCallbacks_insert_nav (t : Timer) (ht : t.callback.isNav = true)
    (q : List Timer) (hq : navCallbacks q = []) :
    navCallbacks (insertTimer t q) = [t.callback] := by
  induction q with
  | nil => simp [insertTimer, navCallbacks, ht]
  | cons x xs ih =>
    rw [navCallbacks_cons] at hq
    by_cases hx : x.callback.isNav = true
    · simp [hx] at hq
    · simp [hx] at hq
      unfold insertTimer
      split_ifs
      · rw [navCallbacks_cons t, navCallbacks_cons x]; simp [ht, hx, hq]
      · rw [navCallbacks_cons]; simp [hx, ih hq]

theorem navCallbacks_insert_two (t₁ t₂ : Timer) (h₁ : t₁.callback.isNav = true)
    (h₂ : t₂.callback.isNav = true) (hd : t₁.due ≤ t₂.due)
    (q : List Timer) (hq : navCallbacks q = []) :
    navCallbacks (insertTimer t₂ (insertTimer t₁ q)) = [t₁.callback, t₂.callback] := by
  induction q with
  | nil =>
    have : ¬ t₂.due < t₁.due := by omega
    simp [insertTimer, navCallbacks, h₁, h₂, this]
  | cons x xs ih =>
    rw [navCallbacks_cons] at hq
    by_cases hx : x.callback.isNav = true
    · simp [hx] at hq
    · simp [hx] at hq
      by_cases hlt : t₁.due < x.due
      · have h21 : ¬ t₂.due < t₁.due := by omega
        have hxs : navCallbacks (x :: xs) = [] := by
          rw [navCallbacks_cons]; simp [hx, hq]
        simp only [insertTimer, hlt, if_true, h21, if_false]
        rw [navCallbacks_cons t₁]
        simp only [h₁, if_true]
        have := navCallbacks_insert_nav t₂ h₂ (x :: xs) hxs
        simp only [insertTimer] at this
        rw [this]
      · have h2x : ¬ t₂.due < x.due := by omega
        simp only [insertTimer, hlt, if_false, h2x]
        rw [navCallbacks_cons]
        simp only [hx, if_false]
        exact ih hq

/-! ## `goToPage`, `nextPage`, `prevPage` -/

theorem elemAt_of_range (ps : List Page) (i : Int) (h0 : 0 ≤ i) (h1 : i < (ps.length : Int)) :
    elemAt ps i = some i.toNat := by
  simp [elemAt, h0, h1]

theorem goToPage_rejected (s : State) (t : Int)
    (h : t < 0 ∨ t ≥ s.totalPages ∨ t = s.currentPage ∨ s.isAnimating = true) :
    goToPage s t = s := by
  unfold goToPage
  by_cases h1 : t < 0 ∨ t ≥ s.totalPages ∨ s.isAnimating = true
  · rw [if_pos h1]
  · rw [if_neg h1]
    have h2 : t = s.currentPage := by
      rcases h with h | h | h | h
      · exact absurd (Or.inl h) h1
      · exact absurd (Or.inr (Or.inl h)) h1
      · exact h
      · exact absurd (Or.inr (Or.inr h)) h1
    rw [if_pos h2]

theorem finishGoTo_frame (s : State) (t : Int) :
    ∃ (q : List Timer) (fx : List Effect),
      finishGoTo s t = { s with timers := q, effects := fx } := by
  simp only [finishGoTo, setTimeout]
  split_ifs
  · exact ⟨_, _, rfl⟩
  · exact ⟨_, _, rfl⟩

/-- Whatever `goToPage` does, it writes only `isAnimating`, the classes of the
pages, the timer queue and the effect trace. -/
theorem goToPage_frame (s : State) (t : Int) :
    ∃ (b : Bool) (ps : List Page) (q : List Timer) (fx : List Effect),
      goToPage s t = { s with isAnimating := b, pages := ps, timers := q, effects := fx } ∧
      ps.map Page.zIndex = s.pages.map Page.zIndex := by
  unfold goToPage
  by_cases h1 : t < 0 ∨ t ≥ s.totalPages ∨ s.isAnimating = true
  · rw [if_pos h1]
    exact ⟨s.isAnimating, s.pages, s.timers, s.effects, rfl, rfl⟩
  rw [if_neg h1]
  by_cases h2 : t = s.currentPage
  · rw [if_pos h2]
    exact ⟨s.isAnimating, s.pages, s.timers, s.effects, rfl, rfl⟩
  rw [if_neg h2]
  simp only
  by_cases h3 : t > s.currentPage
  · rw [if_pos h3]
    cases elemAt s.pages s.currentPage with
    | none => exact ⟨true, s.pages, s.timers, s.effects, rfl, rfl⟩
    | some cur =>
      simp only
      obtain ⟨q, fx, h⟩ := finishGoTo_frame (setTimeout
        { s with
          isAnimating := true
          pages := updatePage (fun p => (p.remove .active).add .turningForward) s.pages cur }
        (.showTarget cur t.toNat) flipDuration) t
      rw [h]
      exact ⟨true, _, q, fx, rfl, updatePage_zIndex _ (by intro p; rfl) s.pages cur⟩
  · rw [if_neg h3]
    cases elemAt s.pages (s.currentPage - 1) with
    | none =>
      simp only
      obtain ⟨q, fx, h⟩ := finishGoTo_frame { s with isAnimating := true } t
      rw [h]
      exact ⟨true, s.pages, q, fx, rfl, rfl⟩
    | some pv =>
      simp only
      cases elemAt (updatePage (fun p => (p.remove .prev).add .turningBackward) s.pages pv)
          s.currentPage with
      | none =>
        exact ⟨true, _, s.timers, s.effects, rfl,
          updatePage_zIndex _ (by intro p; rfl) s.pages pv⟩
      | some cur =>
        simp only
        obtain ⟨q, fx, h⟩ := finishGoTo_frame (setTimeout
          { s with
            isAnimating := true
            pages := updatePage (fun p => p.remove .active)
              (updatePage (fun p => (p.remove .prev).add .turningBackward) s.pages pv) cur }
          (.showPrev pv) flipDuration) t
        rw [h]
        refine ⟨true, _, q, fx, rfl, ?_⟩
        simp only [setTimeout]
        rw [updatePage_zIndex _ (by intro p; rfl), updatePage_zIndex _ (by intro p; rfl)]

theorem goToPage_currentPage (s : State) (t : Int) :
    (goToPage s t).currentPage = s.currentPage := by
  obtain ⟨b, ps, q, fx, h, -⟩ := goToPage_frame s t
  rw [h]

theorem goToPage_zIndex (s : State) (t : Int) :
    (goToPage s t).pages.map Page.zIndex = s.pages.map Page.zIndex := by
  obtain ⟨b, ps, q, fx, h, hz⟩ := goToPage_frame s t
  rw [h]; exact hz

theorem length_eq_of_zIndex {ps qs : List Page}
    (h : ps.map Page.zIndex = qs.map Page.zIndex) : ps.length = qs.length := by
  have := congrArg List.length h
  simpa using this

theorem goToPage_totalPages (s : State) (t : Int) :
    (goToPage s t).totalPages = s.totalPages := by
  unfold State.totalPages
  rw [length_eq_of_zIndex (goToPage_zIndex s t)]

theorem goToPage_display (s : State) (t : Int) (h : DisplaySynced s) :
    DisplaySynced (goToPage s t) := by
  have hN := goToPage_totalPages s t
  obtain ⟨b, ps, q, fx, he, -⟩ := goToPage_frame s t
  unfold DisplaySynced at *
  rw [hN]
  rw [he]
  exact h

/-- The forward branch of `goToPage` in a state whose `currentPage` is a valid
position. -/
theorem goToPage_forward (s : State) (t : Int) (ha : s.isAnimating = false)
    (hc : 0 ≤ s.currentPage) (hlt : s.currentPage < t) (ht : t < s.totalPages) :
    goToPage s t =
      finishGoTo (setTimeout
        { s with
          isAnimating := true
          pages := updatePage (fun p => (p.remove .active).add .turningForward)
            s.pages s.currentPage.toNat }
        (.showTarget s.currentPage.toNat t.toNat) flipDuration) t := by
  unfold goToPage
  have h1 : ¬ (t < 0 ∨ t ≥ s.totalPages ∨ s.isAnimating = true) := by
    rw [ha]; simp; omega
  have h2 : ¬ t = s.currentPage := by omega
  rw [if_neg h1, if_neg h2]
  simp only
  rw [if_pos (show t > s.currentPage from hlt)]
  rw [elemAt_of_range s.pages s.currentPage hc (by unfold State.totalPages at ht; omega)]

/-- The backward branch of `goToPage` in a state whose `currentPage` is a valid
position. -/
theorem goToPage_backward (s : State) (t : Int) (ha : s.isAnimating = false)
    (ht : 0 ≤ t) (hlt : t < s.currentPage) (hc : s.currentPage < s.totalPages) :
    goToPage s t =
      finishGoTo (setTimeout
        { s with
          isAnimating := true
          pages := updatePage (fun p => p.remove .active)
            (updatePage (fun p => (p.remove .prev).add .turningBackward)
              s.pages (s.currentPage - 1).toNat) s.currentPage.toNat }
        (.showPrev (s.currentPage - 1).toNat) flipDuration) t := by
  unfold goToPage
  have h1 : ¬ (t < 0 ∨ t ≥ s.totalPages ∨ s.isAnimating = true) := by
    rw [ha]; simp; omega
  have h2 : ¬ t = s.currentPage := by omega
  rw [if_neg h1, if_neg h2]
  simp only
  rw [if_neg (show ¬ t > s.currentPage by omega)]
  unfold State.totalPages at hc
  rw [elemAt_of_range s.pages (s.currentPage - 1) (by omega) (by omega)]
  simp only
  rw [elemAt_of_range _ s.currentPage (by omega) (by rw [updatePage_length]; omega)]

theorem finishGoTo_timers (s : State) (t : Int) :
    (finishGoTo s t).timers = insertTimer ⟨s.now + (flipDuration + 50), .reconcile t⟩ s.timers := by
  simp only [finishGoTo, setTimeout]
  split_ifs <;> rfl

theorem finishGoTo_isAnimating (s : State) (t : Int) :
    (finishGoTo s t).isAnimating = s.isAnimating := by
  obtain ⟨q, fx, h⟩ := finishGoTo_frame s t
  rw [h]

theorem finishGoTo_pages (s : State) (t : Int) :
    (finishGoTo s t).pages = s.pages := by
  obtain ⟨q, fx, h⟩ := finishGoTo_frame s t
  rw [h]

/-- An accepted `goToPage` from a state without pending transition callbacks
sets the lock and leaves exactly a flip callback and the reconciliation towards
the target pending. -/
theorem goToPage_accepted (s : State) (t : Int) (ha : s.isAnimating = false)
    (hc0 : 0 ≤ s.currentPage) (hcN : s.currentPage < s.totalPages)
    (ht0 : 0 ≤ t) (htN : t < s.totalPages) (hne : t ≠ s.currentPage)
    (hq : navCallbacks s.timers = []) :
    (goToPage s t).isAnimating = true ∧
    (∃ f : Callback, f.isFlip = true ∧
      navCallbacks (goToPage s t).timers = [f, .reconcile t]) ∧
    (goToPage s t).timers.length = s.timers.length + 2 := by
  rcases lt_or_gt_of_ne hne with hlt | hgt
  · rw [goToPage_backward s t ha ht0 hlt hcN]
    refine ⟨by rw [finishGoTo_isAnimating]; rfl, ⟨.showPrev (s.currentPage - 1).toNat, rfl, ?_⟩, ?_⟩
    · rw [finishGoTo_timers]
      simp only [setTimeout]
      exact navCallbacks_insert_two ⟨s.now + flipDuration, .showPrev (s.currentPage - 1).toNat⟩
        ⟨s.now + (flipDuration + 50), .reconcile t⟩ rfl rfl (by simp) s.timers hq
    · rw [finishGoTo_timers]
      simp only [setTimeout, insertTimer_length]
  · rw [goToPage_forward s t ha hc0 hgt htN]
    refine ⟨by rw [finishGoTo_isAnimating]; rfl,
      ⟨.showTarget s.currentPage.toNat t.toNat, rfl, ?_⟩, ?_⟩
    · rw [finishGoTo_timers]
      simp only [setTimeout]
      exact navCallbacks_insert_two ⟨s.now + flipDuration, .showTarget s.currentPage.toNat t.toNat⟩
        ⟨s.now + (flipDuration + 50), .reconcile t⟩ rfl rfl (by simp) s.timers hq
    · rw [finishGoTo_timers]
      simp only [setTimeout, insertTimer_length]

theorem nextPage_eq (s : State) :
    nextPage s = s ∨
      (s.currentPage < s.totalPages - 1 ∧ s.isAnimating = false ∧
        nextPage s = goToPage s (s.currentPage + 1)) := by
  unfold nextPage
  split_ifs with h
  · exact Or.inr ⟨h.1, h.2, rfl⟩
  · exact Or.inl rfl

theorem prevPage_eq (s : State) :
    prevPage s = s ∨
      (s.currentPage > 0 ∧ s.isAnimating = false ∧
        prevPage s = goToPage s (s.currentPage - 1)) := by
  unfold prevPage
  split_ifs with h
  · exact Or.inr ⟨h.1, h.2, rfl⟩
  · exact Or.inl rfl

/-- Every call of `goToPage`, `nextPage` or `prevPage` is dropped while the
lock is set. -/
theorem call_dropped (s : State) (e : Event) (he : e.isCall = true)
    (ha : s.isAnimating = true) : step s e = s := by
  cases e with
  | goTo t => exact goToPage_rejected s t (Or.inr (Or.inr (Or.inr ha)))
  | next => simp [step, nextPage, ha]
  | previous => simp [step, prevPage, ha]
  | fire => simp [Event.isCall] at he
  | elapse ms => simp [Event.isCall] at he

/-! ## Preservation of the invariant -/

theorem inv_goToPage (s : State) (t : Int) (h : Inv s) : Inv (goToPage s t) := by
  by_cases hg : t < 0 ∨ t ≥ s.totalPages ∨ t = s.currentPage ∨ s.isAnimating = true
  · rw [goToPage_rejected s t hg]; exact h
  · have ht0 : 0 ≤ t := by
      by_contra hh; exact hg (Or.inl (by omega))
    have htN : t < s.totalPages := by
      by_contra hh; exact hg (Or.inr (Or.inl (by omega)))
    have hne : t ≠ s.currentPage := fun hh => hg (Or.inr (Or.inr (Or.inl hh)))
    have ha : s.isAnimating = false := by
      cases hb : s.isAnimating with
      | false => rfl
      | true => exact absurd (Or.inr (Or.inr (Or.inr hb))) hg
    obtain ⟨h1, ⟨f, hf, h2⟩, -⟩ :=
      goToPage_accepted s t ha h.lower h.upper ht0 htN hne (h.settled ha)
    refine ⟨?_, ?_, goToPage_display s t h.display, ?_, ?_⟩
    · rw [goToPage_currentPage]; exact h.lower
    · rw [goToPage_currentPage, goToPage_totalPages]; exact h.upper
    · intro hb; rw [h1] at hb; cases hb
    · intro _
      exact ⟨t, ht0, by rw [goToPage_totalPages]; exact htN, Or.inr ⟨f, hf, h2⟩⟩

theorem inv_nextPage (s : State) (h : Inv s) : Inv (nextPage s) := by
  rcases nextPage_eq s with h1 | ⟨-, -, h1⟩
  · rw [h1]; exact h
  · rw [h1]; exact inv_goToPage s _ h

theorem inv_prevPage (s : State) (h : Inv s) : Inv (prevPage s) := by
  rcases prevPage_eq s with h1 | ⟨-, -, h1⟩
  · rw [h1]; exact h
  · rw [h1]; exact inv_goToPage s _ h

/-! ## Timer callbacks -/

theorem fire_nil (s : State) (h : s.timers = []) : fire s = s := by
  unfold fire; rw [h]

theorem fire_cons (s : State) (x : Timer) (rest : List Timer) (h : s.timers = x :: rest) :
    fire s = runCallback { s with timers := rest, now := max s.now x.due } x.callback := by
  unfold fire; rw [h]

/-- A flip callback writes only classes of pages. -/
theorem runCallback_flip (s : State) (f : Callback) (hf : f.isFlip = true) :
    ∃ ps : List Page, runCallback s f = { s with pages := ps } ∧
      ps.map Page.zIndex = s.pages.map Page.zIndex := by
  cases f with
  | showTarget cur target =>
    refine ⟨_, rfl, ?_⟩
    rw [updatePage_zIndex _ (by intro p; rfl), updatePage_zIndex _ (by intro p; rfl)]
  | showPrev pv =>
    exact ⟨_, rfl, updatePage_zIndex _ (by intro p; rfl) s.pages pv⟩
  | reconcile t => simp [Callback.isFlip] at hf
  | hideInstruction => simp [Callback.isFlip] at hf

/-- The callback that hides the instruction element writes nothing else. -/
theorem runCallback_hide (s : State) :
    ∃ ins : Option Instruction, runCallback s .hideInstruction = { s with instruction := ins } := by
  simp only [runCallback]
  split
  · exact ⟨_, rfl⟩
  · exact ⟨s.instruction, rfl⟩

/-- The reconciliation callback: `currentPage` becomes the target, all pages are
recomputed from it, the display is refreshed and the lock is cleared; besides
that only the instruction element and its hiding timer are touched. -/
theorem runCallback_reconcile (s : State) (t : Int) :
    ∃ (ins : Option Instruction) (q : List Timer),
      runCallback s (.reconcile t) =
        { updateDisplay { s with currentPage := t, pages := reconcilePages t s.pages } with
          isAnimating := false, instruction := ins, timers := q } ∧
      navCallbacks q = navCallbacks s.timers := by
  unfold runCallback
  simp only
  by_cases h : t > 0
  · cases hi : s.instruction with
    | none =>
      refine ⟨none, s.timers, ?_, rfl⟩
      simp [updateDisplay, h, hi]
    | some ins =>
      refine ⟨some { ins with faded := true },
        insertTimer ⟨s.now + 500, .hideInstruction⟩ s.timers, ?_, ?_⟩
      · simp [updateDisplay, h, hi, setTimeout]
      · exact navCallbacks_insert_other ⟨s.now + 500, .hideInstruction⟩ rfl s.timers
  · refine ⟨s.instruction, s.timers, ?_, rfl⟩
    simp [updateDisplay, h]

theorem displaySynced_updateDisplay (s : State) : DisplaySynced (updateDisplay s) := by
  simp [DisplaySynced, updateDisplay, State.totalPages]

theorem inv_fire (s : State) (h : Inv s) : Inv (fire s) := by
  cases hq : s.timers with
  | nil => rw [fire_nil s hq]; exact h
  | cons x rest =>
    rw [fire_cons s x rest hq]
    have hnav : navCallbacks s.timers =
        if x.callback.isNav = true then x.callback :: navCallbacks rest
        else navCallbacks rest := by
      rw [hq, navCallbacks_cons]
    cases hx : x.callback with
    | hideInstruction =>
      obtain ⟨ins, he⟩ := runCallback_hide { s with timers := rest, now := max s.now x.due }
      rw [he]
      rw [hx] at hnav
      simp only [Callback.isNav] at hnav
      exact ⟨h.lower, h.upper, h.display,
        fun ha => by rw [← h.settled ha, hnav]; simp,
        fun ha => by
          obtain ⟨t, h0, h1, h2⟩ := h.animating ha
          refine ⟨t, h0, h1, ?_⟩
          unfold InFlight at *
          rw [hnav] at h2
          simpa using h2⟩
    | reconcile t =>
      obtain ⟨ins, q, he, hq2⟩ :=
        runCallback_reconcile { s with timers := rest, now := max s.now x.due } t
      rw [he]
      rw [hx] at hnav
      simp only [Callback.isNav, if_true] at hnav
      rcases Bool.eq_false_or_eq_true s.isAnimating with ha | ha
      rotate_left
      · rw [h.settled ha] at hnav; cases hnav
      ·
        obtain ⟨u, h0, h1, h2⟩ := h.animating ha
        have htu : t = u ∧ navCallbacks rest = [] := by
          rcases h2 with h2 | ⟨f, hf, h2⟩
          · rw [hnav] at h2
            simp only [List.cons.injEq, Callback.reconcile.injEq] at h2
            exact h2
          · rw [hnav] at h2
            simp only [List.cons.injEq] at h2
            rw [← h2.1] at hf
            simp [Callback.isFlip] at hf
        obtain ⟨rfl, hrest⟩ := htu
        refine ⟨h0, ?_, ?_, ?_, ?_⟩
        · show t < ((reconcilePages t s.pages).length : Int)
          rw [reconcilePages_length]; exact h1
        · have := displaySynced_updateDisplay
            { s with timers := rest, now := max s.now x.due, currentPage := t,
                     pages := reconcilePages t s.pages }
          exact this
        · intro _
          show navCallbacks q = []
          rw [hq2]; exact hrest
        · intro hb; cases hb
    | showTarget cur target =>
      obtain ⟨ps, he, hz⟩ := runCallback_flip { s with timers := rest, now := max s.now x.due }
        (.showTarget cur target) rfl
      rw [he]
      rw [hx] at hnav
      simp only [Callback.isNav, if_true] at hnav
      have hlen : ps.length = s.pages.length := length_eq_of_zIndex hz
      rcases Bool.eq_false_or_eq_true s.isAnimating with ha | ha
      rotate_left
      · rw [h.settled ha] at hnav; cases hnav
      ·
        obtain ⟨u, h0, h1, h2⟩ := h.animating ha
        have hrest : navCallbacks rest = [.reconcile u] := by
          rcases h2 with h2 | ⟨f, hf, h2⟩
          · rw [hnav] at h2
            simp only [List.cons.injEq] at h2
            exact absurd h2.1 (by simp)
          · rw [hnav] at h2
            simp only [List.cons.injEq] at h2
            exact h2.2
        refine ⟨h.lower, ?_, ?_, ?_, ?_⟩
        · show s.currentPage < (ps.length : Int)
          rw [hlen]; exact h.upper
        · have hd := h.display
          unfold DisplaySynced State.totalPages at *
          simp only [hlen]
          exact hd
        · intro hb
          have : s.isAnimating = false := hb
          rw [ha] at this; cases this
        · intro _
          refine ⟨u, h0, ?_, Or.inl hrest⟩
          show u < (ps.length : Int)
          rw [hlen]; exact h1
    | showPrev pv =>
      obtain ⟨ps, he, hz⟩ := runCallback_flip { s with timers := rest, now := max s.now x.due }
        (.showPrev pv) rfl
      rw [he]
      rw [hx] at hnav
      simp only [Callback.isNav, if_true] at hnav
      have hlen : ps.length = s.pages.length := length_eq_of_zIndex hz
      rcases Bool.eq_false_or_eq_true s.isAnimating with ha | ha
      rotate_left
      · rw [h.settled ha] at hnav; cases hnav
      ·
        obtain ⟨u, h0, h1, h2⟩ := h.animating ha
        have hrest : navCallbacks rest = [.reconcile u] := by
          rcases h2 with h2 | ⟨f, hf, h2⟩
          · rw [hnav] at h2
            simp only [List.cons.injEq] at h2
            exact absurd h2.1 (by simp)
          · rw [hnav] at h2
            simp only [List.cons.injEq] at h2
            exact h2.2
        refine ⟨h.lower, ?_, ?_, ?_, ?_⟩
        · show s.currentPage < (ps.length : Int)
          rw [hlen]; exact h.upper
        · have hd := h.display
          unfold DisplaySynced State.totalPages at *
          simp only [hlen]
          exact hd
        · intro hb
          have : s.isAnimating = false := hb
          rw [ha] at this; cases this
        · intro _
          refine ⟨u, h0, ?_, Or.inl hrest⟩
          show u < (ps.length : Int)
          rw [hlen]; exact h1

/-! ## Reachable states -/

theorem inv_step (s : State) (e : Event) (h : Inv s) : Inv (step s e) := by
  cases e with
  | goTo t => exact inv_goToPage s t h
  | next => exact inv_nextPage s h
  | previous => exact inv_prevPage s h
  | fire => exact inv_fire s h
  | elapse ms => exact ⟨h.lower, h.upper, h.display, h.settled, h.animating⟩

theorem inv_run (s : State) (es : List Event) (h : Inv s) : Inv (run s es) := by
  induction es generalizing s with
  | nil => exact h
  | cons e es ih => exact ih (step s e) (inv_step s e h)

theorem run_append (s : State) (es fs : List Event) :
    run s (es ++ fs) = run (run s es) fs := by
  simp [run, List.foldl_append]

theorem inv_initialState (markup : List Page) (ins : Option Instruction) (v : Bool)
    (hN : 1 ≤ markup.length) : Inv (initialState markup ins v) := by
  refine ⟨le_refl _, ?_, displaySynced_updateDisplay _, fun _ => rfl, fun hb => by cases hb⟩
  show (0 : Int) < ((initializePages markup).length : Int)
  rw [initializePages_length]
  omega

theorem reconcilePage_idem (c : Int) (i : Nat) (p : Page) :
    reconcilePage c i (reconcilePage c i p) = reconcilePage c i p :=
  reconcilePage_congr c i _ _ (reconcilePage_zIndex c i p)

theorem reconcilePages_idem (c : Int) (ps : List Page) :
    reconcilePages c (reconcilePages c ps) = reconcilePages c ps :=
  reconcilePages_congr c _ _ (reconcilePages_zIndex c ps)

theorem reconcilePage_initializePage (n k : Nat) (p : Page)
    (ht : p.turningForward = false ∧ p.turningBackward = false)
    (hp : k = 0 → p.prev = false) :
    reconcilePage 0 k (initializePage n k p) = initializePage n k p := by
  obtain ⟨a, pv, tf, tb, z⟩ := p
  simp only at ht hp
  obtain ⟨rfl, rfl⟩ := ht
  cases k with
  | zero =>
    have := hp rfl
    subst this
    simp [reconcilePage, initializePage, Page.add, Page.remove]
  | succ k =>
    have h1 : ¬ ((k : Int) + 1 < 0) := by omega
    have h2 : ¬ ((k : Int) + 1 = 0) := by omega
    simp [reconcilePage, initializePage, Page.add, Page.remove, h1, h2]

theorem reconcileFrom_initializeFrom (n k : Nat) (ps : List Page)
    (ht : ∀ q ∈ ps, q.turningForward = false ∧ q.turningBackward = false)
    (hp : k = 0 → ∀ p, ps.head? = some p → p.prev = false) :
    reconcileFrom 0 k (initializeFrom n k ps) = initializeFrom n k ps := by
  induction ps generalizing k with
  | nil => rfl
  | cons p ps ih =>
    simp only [initializeFrom, reconcileFrom]
    rw [reconcilePage_initializePage n k p (ht p (List.mem_cons_self _ _))
      (fun hk => hp hk p rfl)]
    rw [ih (k + 1) (fun q hq => ht q (List.mem_cons_of_mem _ hq)) (fun hk => by omega)]

theorem pagesSettled_initialState (markup : List Page) (ins : Option Instruction) (v : Bool)
    (hm : CleanMarkup markup) : PagesSettled (initialState markup ins v) := by
  intro _
  show reconcilePages 0 (initializePages markup) = initializePages markup
  unfold reconcilePages initializePages
  cases markup with
  | nil => rfl
  | cons p ps =>
    exact reconcileFrom_initializeFrom _ 0 (p :: ps) hm.2
      (fun _ q hq => by simp at hq; rw [← hq]; exact hm.1)

theorem pagesSettled_goToPage (s : State) (t : Int) (hi : Inv s) (h : PagesSettled s) :
    PagesSettled (goToPage s t) := by
  by_cases hg : t < 0 ∨ t ≥ s.totalPages ∨ t = s.currentPage ∨ s.isAnimating = true
  · rw [goToPage_rejected s t hg]; exact h
  · have ht0 : 0 ≤ t := by
      by_contra hh; exact hg (Or.inl (by omega))
    have htN : t < s.totalPages := by
      by_contra hh; exact hg (Or.inr (Or.inl (by omega)))
    have hne : t ≠ s.currentPage := fun hh => hg (Or.inr (Or.inr (Or.inl hh)))
    have ha : s.isAnimating = false := by
      rcases Bool.eq_false_or_eq_true s.isAnimating with hb | hb
      · exact absurd (Or.inr (Or.inr (Or.inr hb))) hg
      · exact hb
    obtain ⟨h1, -, -⟩ :=
      goToPage_accepted s t ha hi.lower hi.upper ht0 htN hne (hi.settled ha)
    intro hb; rw [h1] at hb; cases hb

theorem pagesSettled_fire (s : State) (hi : Inv s) (h : PagesSettled s) :
    PagesSettled (fire s) := by
  cases hq : s.timers with
  | nil => rw [fire_nil s hq]; exact h
  | cons x rest =>
    rw [fire_cons s x rest hq]
    have hnav : navCallbacks s.timers =
        if x.callback.isNav = true then x.callback :: navCallbacks rest
        else navCallbacks rest := by
      rw [hq, navCallbacks_cons]
    cases hx : x.callback with
    | hideInstruction =>
      obtain ⟨ins, he⟩ := runCallback_hide { s with timers := rest, now := max s.now x.due }
      rw [he]
      exact h
    | reconcile t =>
      obtain ⟨ins, q, he, -⟩ :=
        runCallback_reconcile { s with timers := rest, now := max s.now x.due } t
      rw [he]
      intro _
      exact reconcilePages_idem t s.pages
    | showTarget cur target =>
      obtain ⟨ps, he, -⟩ := runCallback_flip { s with timers := rest, now := max s.now x.due }
        (.showTarget cur target) rfl
      rw [he]
      intro hb
      have ha : s.isAnimating = false := hb
      rw [hx, hi.settled ha] at hnav
      simp [Callback.isNav] at hnav
    | showPrev pv =>
      obtain ⟨ps, he, -⟩ := runCallback_flip { s with timers := rest, now := max s.now x.due }
        (.showPrev pv) rfl
      rw [he]
      intro hb
      have ha : s.isAnimating = false := hb
      rw [hx, hi.settled ha] at hnav
      simp [Callback.isNav] at hnav

theorem pagesSettled_step (s : State) (e : Event) (hi : Inv s) (h : PagesSettled s) :
    PagesSettled (step s e) := by
  cases e with
  | goTo t => exact pagesSettled_goToPage s t hi h
  | next =>
    rcases nextPage_eq s with h1 | ⟨-, -, h1⟩
    · show PagesSettled (nextPage s)
      rw [h1]; exact h
    · show PagesSettled (nextPage s)
      rw [h1]; exact pagesSettled_goToPage s _ hi h
  | previous =>
    rcases prevPage_eq s with h1 | ⟨-, -, h1⟩
    · show PagesSettled (prevPage s)
      rw [h1]; exact h
    · show PagesSettled (prevPage s)
      rw [h1]; exact pagesSettled_goToPage s _ hi h
  | fire => exact pagesSettled_fire s hi h
  | elapse ms => exact h

theorem pagesSettled_run (s : State) (es : List Event) (hi : Inv s) (h : PagesSettled s) :
    PagesSettled (run s es) := by
  induction es generalizing s with
  | nil => exact h
  | cons e es ih => exact ih (step s e) (inv_step s e hi) (pagesSettled_step s e hi h)

theorem fire_zIndex (s : State) :
    (fire s).pages.map Page.zIndex = s.pages.map Page.zIndex := by
  cases hq : s.timers with
  | nil => rw [fire_nil s hq]
  | cons x rest =>
    rw [fire_cons s x rest hq]
    cases hx : x.callback with
    | hideInstruction =>
      obtain ⟨ins, he⟩ := runCallback_hide { s with timers := rest, now := max s.now x.due }
      rw [he]
    | reconcile t =>
      obtain ⟨ins, q, he, -⟩ :=
        runCallback_reconcile { s with timers := rest, now := max s.now x.due } t
      rw [he]
      exact reconcilePages_zIndex t s.pages
    | showTarget cur target =>
      obtain ⟨ps, he, hz⟩ := runCallback_flip { s with timers := rest, now := max s.now x.due }
        (.showTarget cur target) rfl
      rw [he]; exact hz
    | showPrev pv =>
      obtain ⟨ps, he, hz⟩ := runCallback_flip { s with timers := rest, now := max s.now x.due }
        (.showPrev pv) rfl
      rw [he]; exact hz

theorem step_zIndex (s : State) (e : Event) :
    (step s e).pages.map Page.zIndex = s.pages.map Page.zIndex := by
  cases e with
  | goTo t => exact goToPage_zIndex s t
  | next =>
    show (nextPage s).pages.map Page.zIndex = _
    rcases nextPage_eq s with h1 | ⟨-, -, h1⟩
    · rw [h1]
    · rw [h1]; exact goToPage_zIndex s _
  | previous =>
    show (prevPage s).pages.map Page.zIndex = _
    rcases prevPage_eq s with h1 | ⟨-, -, h1⟩
    · rw [h1]
    · rw [h1]; exact goToPage_zIndex s _
  | fire => exact fire_zIndex s
  | elapse ms => rfl

theorem run_zIndex (s : State) (es : List Event) :
    (run s es).pages.map Page.zIndex = s.pages.map Page.zIndex := by
  induction es generalizing s with
  | nil => rfl
  | cons e es ih =>
    show (run (step s e) es).pages.map Page.zIndex = _
    rw [ih (step s e), step_zIndex]

theorem run_totalPages (s : State) (es : List Event) :
    (run s es).totalPages = s.totalPages := by
  unfold State.totalPages
  rw [length_eq_of_zIndex (run_zIndex s es)]

theorem initialState_totalPages (markup : List Page) (ins : Option Instruction) (v : Bool) :
    (initialState markup ins v).totalPages = (markup.length : Int) := by
  show ((initializePages markup).length : Int) = _
  rw [initializePages_length]

theorem reconcilePage_spec (c : Int) (i : Nat) (p : Page) :
    ((i : Int) < c → (reconcilePage c i p).isBehind) ∧
    ((i : Int) = c → (reconcilePage c i p).isActiveOnly) ∧
    ((i : Int) > c → (reconcilePage c i p).isIdle) := by
  refine ⟨fun h => ?_, fun h => ?_, fun h => ?_⟩
  · simp [reconcilePage, h, Page.isBehind, Page.add, Page.remove]
  · simp [reconcilePage, h, Page.isActiveOnly, Page.add, Page.remove]
  · have h1 : ¬ (i : Int) < c := by omega
    have h2 : ¬ (i : Int) = c := by omega
    simp [reconcilePage, h1, h2, Page.isIdle, Page.add, Page.remove]

/-- In a list of pages that the reconciliation pass leaves unchanged, every page
before position `c` is `Behind`, the page at `c` carries `active` only and every
page after `c` is `Idle`. -/
theorem reconciled_page_spec (c : Int) (ps : List Page) (h : reconcilePages c ps = ps)
    (i : Nat) (p : Page) (hp : ps[i]? = some p) :
    ((i : Int) < c → p.isBehind) ∧
    ((i : Int) = c → p.isActiveOnly) ∧
    ((i : Int) > c → p.isIdle) := by
  have h2 : (reconcilePages c ps)[i]? = some p := by rw [h]; exact hp
  rw [reconcilePages_getElem?, hp] at h2
  simp only [Option.map_some', Option.some.injEq] at h2
  rw [← h2]
  exact reconcilePage_spec c i p

theorem reconciled_active_iff (c : Int) (ps : List Page) (h : reconcilePages c ps = ps)
    (i : Nat) (p : Page) (hp : ps[i]? = some p) :
    p.isActive ↔ (i : Int) = c := by
  obtain ⟨h1, h2, h3⟩ := reconciled_page_spec c ps h i p hp
  constructor
  · intro ha
    rcases lt_trichotomy (i : Int) c with hlt | heq | hgt
    · have := (h1 hlt).2.1
      unfold Page.isActive at ha
      rw [ha] at this; cases this
    · exact heq
    · have := (h3 hgt).1
      unfold Page.isActive at ha
      rw [ha] at this; cases this
  · intro he
    exact (h2 he).1

theorem getElem?_toNat_of_range (ps : List Page) (c : Int) (h0 : 0 ≤ c)
    (h1 : c < (ps.length : Int)) : ∃ p, ps[c.toNat]? = some p := by
  have : c.toNat < ps.length := by omega
  exact ⟨ps[c.toNat], List.getElem?_eq_getElem this⟩

theorem goToPage_isAnimating_of_accepted (s : State) (t : Int)
    (h : ¬ (t < 0 ∨ t ≥ s.totalPages ∨ t = s.currentPage ∨ s.isAnimating = true)) :
    (goToPage s t).isAnimating = true := by
  have h1 : ¬ (t < 0 ∨ t ≥ s.totalPages ∨ s.isAnimating = true) := by
    rintro (h1 | h1 | h1)
    · exact h (Or.inl h1)
    · exact h (Or.inr (Or.inl h1))
    · exact h (Or.inr (Or.inr (Or.inr h1)))
  have h2 : ¬ t = s.currentPage := fun h2 => h (Or.inr (Or.inr (Or.inl h2)))
  unfold goToPage
  rw [if_neg h1, if_neg h2]
  simp only
  by_cases h3 : t > s.currentPage
  · rw [if_pos h3]
    cases elemAt s.pages s.currentPage with
    | none => rfl
    | some cur => simp only [finishGoTo_isAnimating, setTimeout]
  · rw [if_neg h3]
    cases elemAt s.pages (s.currentPage - 1) with
    | none => simp only [finishGoTo_isAnimating]
    | some pv =>
      simp only
      cases elemAt (updatePage (fun p => (p.remove .prev).add .turningBackward) s.pages pv)
          s.currentPage with
      | none => rfl
      | some cur => simp only [finishGoTo_isAnimating, setTimeout]

theorem finishGoTo_effects (s : State) (t : Int) :
    (finishGoTo s t).effects =
      s.effects ++ (if s.canVibrate = true then [Effect.vibrate 10] else []) ++ [Effect.pageSound] := by
  simp only [finishGoTo, setTimeout]
  split_ifs <;> simp

/-- The two timers and the side effects of an accepted `goToPage` in a state
whose `currentPage` is a valid position. -/
theorem goToPage_starts (s : State) (t : Int) (ha : s.isAnimating = false)
    (hc0 : 0 ≤ s.currentPage) (hcN : s.currentPage < s.totalPages)
    (ht0 : 0 ≤ t) (htN : t < s.totalPages) (hne : t ≠ s.currentPage) :
    (∃ f : Callback, f.isFlip = true ∧
      (goToPage s t).timers =
        insertTimer ⟨s.now + (flipDuration + 50), .reconcile t⟩
          (insertTimer ⟨s.now + flipDuration, f⟩ s.timers)) ∧
    (goToPage s t).effects =
      s.effects ++ (if s.canVibrate = true then [Effect.vibrate 10] else []) ++ [Effect.pageSound] := by
  rcases lt_or_gt_of_ne hne with hlt | hgt
  · rw [goToPage_backward s t ha ht0 hlt hcN]
    refine ⟨⟨.showPrev (s.currentPage - 1).toNat, rfl, ?_⟩, ?_⟩
    · rw [finishGoTo_timers]; rfl
    · rw [finishGoTo_effects]; rfl
  · rw [goToPage_forward s t ha hc0 hgt htN]
    refine ⟨⟨.showTarget s.currentPage.toNat t.toNat, rfl, ?_⟩, ?_⟩
    · rw [finishGoTo_timers]; rfl
    · rw [finishGoTo_effects]; rfl

/-! ## Firing timers during a transition -/

theorem reconcileDue_cons (s : State) (x : Timer) (rest : List Timer)
    (h : s.timers = x :: rest) :
    reconcileDue s = match x.callback with
      | .reconcile _ => true
      | _ => false := by
  unfold reconcileDue
  rw [h]
  obtain ⟨d, cb⟩ := x
  cases cb <;> rfl

/-- One firing while a transition towards `t` is in flight: either the timer is
not the reconciliation, and the lock, `currentPage` and the pending transition
stay (only page classes or the instruction element change); or it is the
reconciliation, which installs `t`, recomputes the pages, refreshes the display
and clears the lock. -/
theorem fire_inFlight (s : State) (t : Int) (ha : s.isAnimating = true)
    (hf : InFlight s.timers t) :
    (reconcileDue s = false ∧ (fire s).isAnimating = true ∧
      (fire s).currentPage = s.currentPage ∧ InFlight (fire s).timers t ∧
      (fire s).pages.map Page.zIndex = s.pages.map Page.zIndex ∧
      (fire s).timers.length + 1 = s.timers.length) ∨
    (reconcileDue s = true ∧ (fire s).isAnimating = false ∧
      (fire s).currentPage = t ∧ (fire s).pages = reconcilePages t s.pages ∧
      DisplaySynced (fire s) ∧ navCallbacks (fire s).timers = []) := by
  cases hq : s.timers with
  | nil =>
    rw [hq] at hf
    rcases hf with hf | ⟨f, -, hf⟩ <;> simp [navCallbacks] at hf
  | cons x rest =>
    rw [fire_cons s x rest hq, reconcileDue_cons s x rest hq]
    have hnav : navCallbacks s.timers =
        if x.callback.isNav = true then x.callback :: navCallbacks rest
        else navCallbacks rest := by
      rw [hq, navCallbacks_cons]
    rw [← hq]
    unfold InFlight at hf
    rw [hnav] at hf
    cases hx : x.callback with
    | hideInstruction =>
      left
      obtain ⟨ins, he⟩ := runCallback_hide { s with timers := rest, now := max s.now x.due }
      rw [he]
      rw [hx] at hf
      simp only [Callback.isNav] at hf
      refine ⟨rfl, ha, rfl, ?_, rfl, ?_⟩
      · unfold InFlight
        simpa using hf
      · rw [hq]; rfl
    | reconcile u =>
      right
      obtain ⟨ins, q, he, hq2⟩ :=
        runCallback_reconcile { s with timers := rest, now := max s.now x.due } u
      rw [he]
      rw [hx] at hf
      simp only [Callback.isNav, if_true] at hf
      have htu : u = t ∧ navCallbacks rest = [] := by
        rcases hf with h2 | ⟨f, hf1, h2⟩
        · simp only [List.cons.injEq, Callback.reconcile.injEq] at h2
          exact h2
        · simp only [List.cons.injEq] at h2
          rw [← h2.1] at hf1
          simp [Callback.isFlip] at hf1
      obtain ⟨rfl, hrest⟩ := htu
      refine ⟨rfl, rfl, rfl, rfl, ?_, ?_⟩
      · exact displaySynced_updateDisplay
          { s with timers := rest, now := max s.now x.due, currentPage := u,
                   pages := reconcilePages u s.pages }
      · show navCallbacks q = []
        rw [hq2]; exact hrest
    | showTarget cur target =>
      left
      obtain ⟨ps, he, hz⟩ := runCallback_flip { s with timers := rest, now := max s.now x.due }
        (.showTarget cur target) rfl
      rw [he]
      rw [hx] at hf
      simp only [Callback.isNav, if_true] at hf
      have hrest : navCallbacks rest = [.reconcile t] := by
        rcases hf with h2 | ⟨f, -, h2⟩
        · simp only [List.cons.injEq] at h2
          exact absurd h2.1 (by simp)
        · simp only [List.cons.injEq] at h2
          exact h2.2
      exact ⟨rfl, ha, rfl, Or.inl hrest, hz, by rw [hq]; rfl⟩
    | showPrev pv =>
      left
      obtain ⟨ps, he, hz⟩ := runCallback_flip { s with timers := rest, now := max s.now x.due }
        (.showPrev pv) rfl
      rw [he]
      rw [hx] at hf
      simp only [Callback.isNav, if_true] at hf
      have hrest : navCallbacks rest = [.reconcile t] := by
        rcases hf with h2 | ⟨f, -, h2⟩
        · simp only [List.cons.injEq] at h2
          exact absurd h2.1 (by simp)
        · simp only [List.cons.injEq] at h2
          exact h2.2
      exact ⟨rfl, ha, rfl, Or.inl hrest, hz, by rw [hq]; rfl⟩

theorem fireUntilSettled_of_settled (n : Nat) (s : State) (h : s.isAnimating = false) :
    fireUntilSettled n s = s := by
  cases n with
  | zero => rfl
  | succ n => simp [fireUntilSettled, h]

/-- Letting the timers fire while a transition towards `t` is in flight ends,
within as many firings as there are pending timers, in the settled state of
`t`. -/
theorem fireUntilSettled_spec (n : Nat) (s : State) (t : Int) (ha : s.isAnimating = true)
    (hf : InFlight s.timers t) (hn : s.timers.length ≤ n) :
    (fireUntilSettled n s).isAnimating = false ∧
    (fireUntilSettled n s).currentPage = t ∧
    (fireUntilSettled n s).pages = reconcilePages t s.pages ∧
    DisplaySynced (fireUntilSettled n s) ∧
    navCallbacks (fireUntilSettled n s).timers = [] := by
  induction n generalizing s with
  | zero =>
    have : s.timers = [] := List.length_eq_zero.mp (by omega)
    rw [this] at hf
    rcases hf with hf | ⟨f, -, hf⟩ <;> simp [navCallbacks] at hf
  | succ n ih =>
    have hstep : fireUntilSettled (n + 1) s = fireUntilSettled n (fire s) := by
      simp [fireUntilSettled, ha]
    rw [hstep]
    rcases fire_inFlight s t ha hf with ⟨-, h1, -, h3, h4, h5⟩ | ⟨-, h1, h2, h3, h4, h5⟩
    · obtain ⟨k1, k2, k3, k4, k5⟩ := ih (fire s) h1 h3 (by omega)
      refine ⟨k1, k2, ?_, k4, k5⟩
      rw [k3]
      exact reconcilePages_congr t _ _ h4
    · rw [fireUntilSettled_of_settled n (fire s) h1]
      exact ⟨h1, h2, h3, h4, h5⟩

theorem settle_spec (s : State) (t : Int) (ha : s.isAnimating = true)
    (hf : InFlight s.timers t) :
    (settle s).isAnimating = false ∧
    (settle s).currentPage = t ∧
    (settle s).pages = reconcilePages t s.pages ∧
    DisplaySynced (settle s) ∧
    navCallbacks (settle s).timers = [] :=
  fireUntilSettled_spec s.timers.length s t ha hf (le_refl _)

/-- A whole transition: from a state without a transition in flight, an accepted
`goToPage t` followed by the firing of its timers ends in the settled state of
`t`, whose pages are the reconciliation of the pages it started from. -/
theorem transition_settles (s : State) (t : Int) (ha : s.isAnimating = false)
    (hc0 : 0 ≤ s.currentPage) (hcN : s.currentPage < s.totalPages)
    (ht0 : 0 ≤ t) (htN : t < s.totalPages) (hne : t ≠ s.currentPage)
    (hq : navCallbacks s.timers = []) :
    (settle (goToPage s t)).isAnimating = false ∧
    (settle (goToPage s t)).currentPage = t ∧
    (settle (goToPage s t)).pages = reconcilePages t s.pages ∧
    DisplaySynced (settle (goToPage s t)) ∧
    navCallbacks (settle (goToPage s t)).timers = [] ∧
    (settle (goToPage s t)).totalPages = s.totalPages := by
  obtain ⟨h1, ⟨f, hf, h2⟩, -⟩ := goToPage_accepted s t ha hc0 hcN ht0 htN hne hq
  obtain ⟨k1, k2, k3, k4, k5⟩ := settle_spec (goToPage s t) t h1 (Or.inr ⟨f, hf, h2⟩)
  have hp : (settle (goToPage s t)).pages = reconcilePages t s.pages := by
    rw [k3]
    exact reconcilePages_congr t _ _ (goToPage_zIndex s t)
  refine ⟨k1, k2, hp, k4, k5, ?_⟩
  unfold State.totalPages
  rw [hp, reconcilePages_length]

theorem reconcilePages_page_spec (c : Int) (ps : List Page) (i : Nat) (p : Page)
    (hp : (reconcilePages c ps)[i]? = some p) :
    ((i : Int) < c → p.isBehind) ∧
    ((i : Int) = c → p.isActiveOnly) ∧
    ((i : Int) > c → p.isIdle) :=
  reconciled_page_spec c _ (reconcilePages_idem c ps) i p hp

theorem not_isTurning_of_state (p : Page) (h : p.isBehind ∨ p.isActiveOnly ∨ p.isIdle) :
    ¬ p.isTurning := by
  unfold Page.isTurning
  rcases h with h | h | h
  · rw [h.2.2.1, h.2.2.2]; simp
  · rw [h.2.2.1, h.2.2.2]; simp
  · rw [h.2.2.1, h.2.2.2]; simp

/-- Two states whose displays show their `currentPage` show the same when they
agree on `currentPage` and on the number of pages. -/
theorem display_eq_of_synced (r s : State) (hr : DisplaySynced r) (hs : DisplaySynced s)
    (hc : r.currentPage = s.currentPage) (hN : r.totalPages = s.totalPages) :
    r.indicator = s.indicator ∧ r.prevDisabled = s.prevDisabled ∧
    r.nextDisabled = s.nextDisabled ∧ r.prevAria = s.prevAria ∧ r.nextAria = s.nextAria := by
  obtain ⟨a1, a2, a3, a4, a5⟩ := hr
  obtain ⟨b1, b2, b3, b4, b5⟩ := hs
  rw [a1, a2, a3, a4, a5, b1, b2, b3, b4, b5, hc, hN]
  exact ⟨rfl, rfl, rfl, rfl, rfl⟩

/-! ## Runs between acceptance and reconciliation -/

/-- While a transition towards `t` is in flight and no reconciliation timer
fires, the lock stays set, `currentPage` stays, the transition stays pending, and
every call is dropped: the run equals the run without the calls. -/
theorem midFlight_run (s : State) (t : Int) (ha : s.isAnimating = true)
    (hf : InFlight s.timers t) (es : List Event) (hm : midFlight s es = true) :
    (run s es).isAnimating = true ∧
    (run s es).currentPage = s.currentPage ∧
    InFlight (run s es).timers t ∧
    run s es = run s (withoutCalls es) ∧
    midFlight s (withoutCalls es) = true := by
  induction es generalizing s with
  | nil => exact ⟨ha, rfl, hf, rfl, rfl⟩
  | cons e es ih =>
    simp only [midFlight, Bool.and_eq_true, Bool.not_eq_true'] at hm
    obtain ⟨hm1, hm2⟩ := hm
    by_cases hc : e.isCall = true
    · have hd : step s e = s := call_dropped s e hc ha
      rw [hd] at hm2
      have hw : withoutCalls (e :: es) = withoutCalls es := by
        simp [withoutCalls, List.filter_cons, hc]
      have hr : run s (e :: es) = run s es := by
        show run (step s e) es = run s es
        rw [hd]
      rw [hw, hr]
      exact ih s ha hf hm2
    · have hw : withoutCalls (e :: es) = e :: withoutCalls es := by
        simp [withoutCalls, List.filter_cons, hc]
      have hstep : (step s e).isAnimating = true ∧ (step s e).currentPage = s.currentPage ∧
          InFlight (step s e).timers t := by
        cases e with
        | goTo u => simp [Event.isCall] at hc
        | next => simp [Event.isCall] at hc
        | previous => simp [Event.isCall] at hc
        | elapse ms => exact ⟨ha, rfl, hf⟩
        | fire =>
          have hrd : reconcileDue s = false := hm1
          rcases fire_inFlight s t ha hf with ⟨-, h1, h2, h3, -, -⟩ | ⟨h0, -⟩
          · exact ⟨h1, h2, h3⟩
          · rw [hrd] at h0; cases h0
      obtain ⟨k1, k2, k3, k4, k5⟩ := ih (step s e) hstep.1 hstep.2.2 hm2
      rw [hw]
      refine ⟨k1, by rw [← hstep.2.1]; exact k2, k3, k4, ?_⟩
      simp only [midFlight, Bool.and_eq_true, Bool.not_eq_true']
      exact ⟨hm1, k5⟩

/-! ## Order of JavaScript numbers -/

theorem js_lt_def (x y : JSNum) : x < y ↔ JSNum.lt x y = true := Iff.rfl

theorem js_le_def (x y : JSNum) : x ≤ y ↔ JSNum.lt y x = false := Iff.rfl

theorem js_fin_lt_fin (a b : ℚ) : JSNum.fin a < JSNum.fin b ↔ a < b := by
  simp [js_lt_def, JSNum.lt]

theorem js_fin_le_fin (a b : ℚ) : JSNum.fin a ≤ JSNum.fin b ↔ a ≤ b := by
  simp [js_le_def, JSNum.lt]

theorem js_not_lt (x y : JSNum) : ¬ x < y ↔ y ≤ x := by
  simp [js_lt_def, js_le_def]

theorem js_lt_asymm (x y : JSNum) (h : x < y) : ¬ y < x := by
  cases x <;> cases y <;> simp_all [js_lt_def, JSNum.lt]
  exact le_of_lt h

theorem js_lt_irrefl (x : JSNum) : ¬ x < x := fun h => js_lt_asymm x x h h

theorem js_lt_trichotomy (x y : JSNum) : x < y ∨ x = y ∨ y < x := by
  cases x <;> cases y <;> simp [js_lt_def, JSNum.lt]
  exact lt_trichotomy _ _

theorem js_lt_of_lt_of_le (x y z : JSNum) (h1 : x < y) (h2 : y ≤ z) : x < z := by
  cases x <;> cases y <;> cases z <;> simp_all [js_lt_def, js_le_def, JSNum.lt]
  exact lt_of_lt_of_le h1 h2

theorem js_abs_pos_of_lt (x : JSNum) (c : ℚ) (hc : 0 ≤ c) (h : JSNum.fin c < x.abs)
    (hx : ¬ JSNum.fin 0 < x) : x < JSNum.fin 0 := by
  cases x with
  | fin q =>
    simp only [JSNum.abs, js_fin_lt_fin] at h hx ⊢
    have : 0 < |q| := lt_of_le_of_lt hc h
    have hq : q ≠ 0 := abs_pos.mp this
    exact lt_of_le_of_ne (not_lt.mp hx) hq
  | posInf => simp [js_lt_def, JSNum.lt] at hx
  | negInf => simp [js_lt_def, JSNum.lt]

/-! ## IEEE rounding -/

theorem ulp_pos (q : ℚ) : 0 < ulp q := by
  unfold ulp
  positivity

theorem binade_ge (q : ℚ) : -1022 ≤ binade q := le_max_right _ _

theorem ulp_ge_min (q : ℚ) : (2 : ℚ) ^ (-1074 : ℤ) ≤ ulp q := by
  unfold ulp
  apply zpow_le_zpow_right₀ (by norm_num)
  have := binade_ge q
  omega

theorem ulp_le_self (y : ℚ) (hy : (2 : ℚ) ^ (-1074 : ℤ) ≤ y) : ulp y ≤ y := by
  have hpos : 0 < y := lt_of_lt_of_le (by positivity) hy
  unfold ulp binade
  rcases le_total (Int.log 2 |y|) (-1022) with h | h
  · rw [max_eq_right h]
    norm_num at hy ⊢
    exact hy
  · rw [max_eq_left h]
    have h1 : (2 : ℚ) ^ (Int.log 2 |y| - 52) ≤ (2 : ℚ) ^ (Int.log 2 |y|) :=
      zpow_le_zpow_right₀ (by norm_num) (by omega)
    have h2 : ((2 : ℕ) : ℚ) ^ (Int.log 2 |y|) ≤ |y| :=
      Int.zpow_log_le_self (by norm_num) (abs_pos.mpr hpos.ne')
    have h3 : (2 : ℚ) ^ (Int.log 2 |y|) ≤ |y| := by exact_mod_cast h2
    rw [abs_of_pos hpos] at h3 ⊢
    rw [abs_of_pos hpos] at h1
    exact le_trans h1 h3

theorem roundHalfEven_ge (x : ℚ) : x - 1 / 2 ≤ (roundHalfEven x : ℚ) := by
  have h1 : (⌊x⌋ : ℚ) ≤ x := Int.floor_le x
  have h2 : x < ⌊x⌋ + 1 := Int.lt_floor_add_one x
  unfold roundHalfEven
  split_ifs with a b c
  · linarith
  · push_cast; linarith
  · have : x - ⌊x⌋ = 1 / 2 := le_antisymm (not_lt.mp b) (not_lt.mp a)
    linarith
  · push_cast; linarith

theorem roundHalfEven_nonneg (x : ℚ) (hx : 0 ≤ x) : 0 ≤ roundHalfEven x := by
  have h := roundHalfEven_ge x
  have : (-1 : ℚ) < (roundHalfEven x : ℚ) := by linarith
  have : (-1 : ℤ) < roundHalfEven x := by exact_mod_cast this
  omega

theorem roundHalfEven_intCast (n : ℤ) : roundHalfEven (n : ℚ) = n := by
  unfold roundHalfEven
  simp

theorem roundHalfEven_of_lt (x : ℚ) (n : ℤ) (h1 : (n : ℚ) ≤ x) (h2 : x - n < 1 / 2) :
    roundHalfEven x = n := by
  have hf : ⌊x⌋ = n := by
    rw [Int.floor_eq_iff]
    constructor
    · exact h1
    · linarith
  unfold roundHalfEven
  rw [hf, if_pos h2]

theorem roundHalfEven_of_gt (x : ℚ) (n : ℤ) (h1 : 1 / 2 < x - n) (h2 : x < n + 1) :
    roundHalfEven x = n + 1 := by
  have hf : ⌊x⌋ = n := by
    rw [Int.floor_eq_iff]
    constructor
    · linarith
    · exact h2
  unfold roundHalfEven
  rw [hf, if_neg (by linarith), if_pos h1]

theorem binade_eq (q : ℚ) (e : ℤ) (he : -1022 ≤ e) (h1 : (2 : ℚ) ^ e ≤ |q|)
    (h2 : |q| < (2 : ℚ) ^ (e + 1)) : binade q = e := by
  have hpos : 0 < |q| := lt_of_lt_of_le (by positivity) h1
  have hlog : Int.log 2 |q| = e := by
    apply le_antisymm
    · have := (Int.lt_zpow_iff_log_lt (R := ℚ) (b := 2) (by norm_num) hpos (x := e + 1)).mp
        (by exact_mod_cast h2)
      omega
    · exact (Int.zpow_le_iff_le_log (R := ℚ) (b := 2) (by norm_num) hpos).mp
        (by exact_mod_cast h1)
  unfold binade
  rw [hlog, max_eq_left he]

/-- Evaluation of `round64`: in the binade `e`, a value whose quotient by the
spacing rounds to the integer `n` becomes `n` times the spacing. -/
theorem round64_eval (q : ℚ) (e n : ℤ) (he : -1022 ≤ e) (h1 : (2 : ℚ) ^ e ≤ |q|)
    (h2 : |q| < (2 : ℚ) ^ (e + 1)) (hn : roundHalfEven (q / (2 : ℚ) ^ (e - 52)) = n)
    (hlo : -(2 : ℚ) ^ (1024 : ℕ) < (n : ℚ) * (2 : ℚ) ^ (e - 52))
    (hhi : (n : ℚ) * (2 : ℚ) ^ (e - 52) < (2 : ℚ) ^ (1024 : ℕ)) :
    round64 q = .fin ((n : ℚ) * (2 : ℚ) ^ (e - 52)) := by
  unfold round64 ulp
  rw [binade_eq q e he h1 h2]
  simp only [hn]
  rw [if_neg (not_le.mpr hhi), if_neg (not_le.mpr hlo)]

theorem round64_zero : round64 0 = .fin 0 := by
  unfold round64
  simp only [zero_div, roundHalfEven, Int.floor_zero, Int.cast_zero, sub_zero, zero_mul]
  norm_num

/-- The double of a nonnegative exact result is a nonnegative multiple of a
spacing that is at least the least positive double. -/
theorem round64_nonneg (q : ℚ) (hq : 0 ≤ q) (r : ℚ) (h : round64 q = .fin r) :
    r = 0 ∨ (2 : ℚ) ^ (-1074 : ℤ) ≤ r := by
  unfold round64 at h
  simp only at h
  split_ifs at h
  simp only [JSNum.fin.injEq] at h
  have hm : 0 ≤ roundHalfEven (q / ulp q) :=
    roundHalfEven_nonneg _ (div_nonneg hq (ulp_pos q).le)
  rcases eq_or_lt_of_le hm with h0 | h0
  · left
    rw [← h, ← h0]
    simp
  · right
    have h1 : (1 : ℚ) ≤ (roundHalfEven (q / ulp q) : ℚ) := by exact_mod_cast h0
    rw [← h]
    calc (2 : ℚ) ^ (-1074 : ℤ) ≤ ulp q := ulp_ge_min q
      _ = 1 * ulp q := (one_mul _).symm
      _ ≤ (roundHalfEven (q / ulp q) : ℚ) * ulp q :=
          mul_le_mul_of_nonneg_right h1 (ulp_pos q).le

theorem round64_ne_negInf (q : ℚ) (hq : 0 ≤ q) : round64 q ≠ .negInf := by
  have hm : 0 ≤ roundHalfEven (q / ulp q) :=
    roundHalfEven_nonneg _ (div_nonneg hq (ulp_pos q).le)
  have hr : (0 : ℚ) ≤ (roundHalfEven (q / ulp q) : ℚ) * ulp q :=
    mul_nonneg (by exact_mod_cast hm) (ulp_pos q).le
  unfold round64
  simp only
  split_ifs with a b
  · simp
  · exfalso
    have : (0 : ℚ) < (2 : ℚ) ^ (1024 : ℕ) := by positivity
    linarith
  · simp

/-- Doubling a nonnegative double does not make it smaller. -/
theorem le_round64_double (r : ℚ) (hr : r = 0 ∨ (2 : ℚ) ^ (-1074 : ℤ) ≤ r) :
    JSNum.fin r ≤ round64 (r * 2) := by
  rcases hr with rfl | hr
  · rw [zero_mul, round64_zero]
    exact (js_fin_le_fin 0 0).mpr (le_refl _)
  · have hpos : 0 < r := lt_of_lt_of_le (by positivity) hr
    have hne := round64_ne_negInf (r * 2) (by linarith)
    cases h : round64 (r * 2) with
    | posInf => rfl
    | negInf => exact absurd h hne
    | fin r2 =>
      rw [js_fin_le_fin]
      unfold round64 at h
      simp only at h
      split_ifs at h
      simp only [JSNum.fin.injEq] at h
      have hu : ulp (r * 2) ≤ r * 2 := ulp_le_self _ (by linarith)
      have hge := roundHalfEven_ge (r * 2 / ulp (r * 2))
      have hup := ulp_pos (r * 2)
      have : (r * 2 / ulp (r * 2) - 1 / 2) * ulp (r * 2) ≤ r2 := by
        rw [← h]
        exact mul_le_mul_of_nonneg_right hge hup.le
      have h3 : (r * 2 / ulp (r * 2) - 1 / 2) * ulp (r * 2) = r * 2 - ulp (r * 2) / 2 := by
        field_simp
        ring
      rw [h3] at this
      linarith

/-- For a positive width the computed third does not exceed its double. -/
theorem third_le_twoThirds (w : ℚ) (hw : 0 < w) : divide w 3 ≤ (divide w 3).times 2 := by
  unfold divide
  have hne := round64_ne_negInf (w / 3) (by positivity)
  cases h : round64 (w / 3) with
  | posInf => rfl
  | negInf => exact absurd h hne
  | fin r =>
    exact le_round64_double r (round64_nonneg (w / 3) (by positivity) r h)

/-- A value that is a multiple of the spacing of its binade is its own double. -/
theorem round64_exact (q : ℚ) (e n : ℤ) (he : -1022 ≤ e) (hmax : e ≤ 1023)
    (h1 : (2 : ℚ) ^ e ≤ |q|) (h2 : |q| < (2 : ℚ) ^ (e + 1))
    (hq : q = (n : ℚ) * (2 : ℚ) ^ (e - 52)) : round64 q = .fin q := by
  have hpow : (2 : ℚ) ^ (e + 1) ≤ (2 : ℚ) ^ (1024 : ℕ) := by
    have : (2 : ℚ) ^ (e + 1) ≤ (2 : ℚ) ^ ((1024 : ℕ) : ℤ) :=
      zpow_le_zpow_right₀ (by norm_num) (by omega)
    rwa [zpow_natCast] at this
  have hb := abs_lt.mp (lt_of_lt_of_le h2 hpow)
  have hu : (0 : ℚ) < (2 : ℚ) ^ (e - 52) := by positivity
  have hn : roundHalfEven (q / (2 : ℚ) ^ (e - 52)) = n := by
    rw [hq, mul_div_assoc, div_self hu.ne', mul_one]
    exact roundHalfEven_intCast n
  have h := round64_eval q e n he h1 h2 hn (by rw [← hq]; exact hb.1) (by rw [← hq]; exact hb.2)
  rw [h, ← hq]

/-- A value in the binade `e` whose quotient by the spacing lies less than one
half above the integer `n` rounds down to `n` times the spacing. -/
theorem round64_down (q : ℚ) (e n : ℤ) (he : -1022 ≤ e) (h1 : (2 : ℚ) ^ e ≤ |q|)
    (h2 : |q| < (2 : ℚ) ^ (e + 1)) (hn1 : (n : ℚ) ≤ q / (2 : ℚ) ^ (e - 52))
    (hn2 : q / (2 : ℚ) ^ (e - 52) - n < 1 / 2)
    (hlo : -(2 : ℚ) ^ (1024 : ℕ) < (n : ℚ) * (2 : ℚ) ^ (e - 52))
    (hhi : (n : ℚ) * (2 : ℚ) ^ (e - 52) < (2 : ℚ) ^ (1024 : ℕ)) :
    round64 q = .fin ((n : ℚ) * (2 : ℚ) ^ (e - 52)) :=
  round64_eval q e n he h1 h2 (roundHalfEven_of_lt _ n hn1 hn2) hlo hhi

/-! ## Sample evaluations -/

theorem round64_45 : round64 45 = .fin 45 :=
  round64_exact 45 5 (45 * 2 ^ 47) (by norm_num) (by norm_num) (by norm_num [abs_of_pos])
    (by norm_num [abs_of_pos]) (by norm_num [zpow_neg])

theorem round64_neg45 : round64 (-45) = .fin (-45) :=
  round64_exact (-45) 5 (-45 * 2 ^ 47) (by norm_num) (by norm_num) (by norm_num [abs_of_pos])
    (by norm_num [abs_of_pos]) (by norm_num [zpow_neg])

theorem round64_10 : round64 10 = .fin 10 :=
  round64_exact 10 3 (10 * 2 ^ 49) (by norm_num) (by norm_num) (by norm_num [abs_of_pos])
    (by norm_num [abs_of_pos]) (by norm_num [zpow_neg])

theorem round64_neg10 : round64 (-10) = .fin (-10) :=
  round64_exact (-10) 3 (-10 * 2 ^ 49) (by norm_num) (by norm_num) (by norm_num [abs_of_pos])
    (by norm_num [abs_of_pos]) (by norm_num [zpow_neg])

theorem round64_neg20 : round64 (-20) = .fin (-20) :=
  round64_exact (-20) 4 (-20 * 2 ^ 48) (by norm_num) (by norm_num) (by norm_num [abs_of_pos])
    (by norm_num [abs_of_pos]) (by norm_num [zpow_neg])

theorem round64_100 : round64 100 = .fin 100 :=
  round64_exact 100 6 (100 * 2 ^ 46) (by norm_num) (by norm_num) (by norm_num [abs_of_pos])
    (by norm_num [abs_of_pos]) (by norm_num [zpow_neg])

theorem round64_150 : round64 150 = .fin 150 :=
  round64_exact 150 7 (150 * 2 ^ 45) (by norm_num) (by norm_num) (by norm_num [abs_of_pos])
    (by norm_num [abs_of_pos]) (by norm_num [zpow_neg])

theorem round64_200 : round64 200 = .fin 200 :=
  round64_exact 200 7 (200 * 2 ^ 45) (by norm_num) (by norm_num) (by norm_num [abs_of_pos])
    (by norm_num [abs_of_pos]) (by norm_num [zpow_neg])

theorem round64_250 : round64 250 = .fin 250 :=
  round64_exact 250 7 (250 * 2 ^ 45) (by norm_num) (by norm_num) (by norm_num [abs_of_pos])
    (by norm_num [abs_of_pos]) (by norm_num [zpow_neg])

theorem round64_near121Thirds : round64 near121Thirds = .fin near121Thirds :=
  round64_exact near121Thirds 5 5676412030331563 (by norm_num) (by norm_num)
    (by norm_num [near121Thirds, abs_of_pos]) (by norm_num [near121Thirds, abs_of_pos])
    (by norm_num [near121Thirds, zpow_neg])

theorem round64_nearOneThird : round64 nearOneThird = .fin nearOneThird :=
  round64_exact nearOneThird (-2) 6004799503160661 (by norm_num) (by norm_num)
    (by norm_num [nearOneThird, abs_of_pos, zpow_neg])
    (by norm_num [nearOneThird, abs_of_pos, zpow_neg])
    (by norm_num [nearOneThird, zpow_neg])

theorem round64_near340Thirds : round64 near340Thirds = .fin near340Thirds :=
  round64_exact near340Thirds 6 7975124340135253 (by norm_num) (by norm_num)
    (by norm_num [near340Thirds, abs_of_pos]) (by norm_num [near340Thirds, abs_of_pos])
    (by norm_num [near340Thirds, zpow_neg])

theorem round64_twice_near340Thirds :
    round64 (near340Thirds * 2) = .fin (near340Thirds * 2) :=
  round64_exact (near340Thirds * 2) 7 7975124340135253 (by norm_num) (by norm_num)
    (by norm_num [near340Thirds, abs_of_pos]) (by norm_num [near340Thirds, abs_of_pos])
    (by norm_num [near340Thirds, zpow_neg])

/-- The quotient `340 / 3` rounds down to the double just below it. -/
theorem divide_340_3 : divide 340 3 = .fin near340Thirds := by
  have h := round64_down (340 / 3) 6 7975124340135253 (by norm_num)
    (by norm_num [abs_of_pos]) (by norm_num [abs_of_pos]) (by norm_num [zpow_neg])
    (by norm_num [zpow_neg]) (by norm_num [zpow_neg]) (by norm_num [zpow_neg])
  unfold divide
  rw [h]
  norm_num [near340Thirds, zpow_neg]

/-- The difference of the doubles nearest to `121/3` and `1/3` is exactly
`40 + 43 / 2 ^ 54`; as a double it is `40`. -/
theorem minus_near121Thirds_nearOneThird : minus near121Thirds nearOneThird = .fin 40 := by
  have h := round64_down (near121Thirds - nearOneThird) 5 (40 * 2 ^ 47) (by norm_num)
    (by norm_num [near121Thirds, nearOneThird, abs_of_pos])
    (by norm_num [near121Thirds, nearOneThird, abs_of_pos])
    (by norm_num [near121Thirds, nearOneThird, zpow_neg])
    (by norm_num [near121Thirds, nearOneThird, zpow_neg])
    (by norm_num [zpow_neg]) (by norm_num [zpow_neg])
  unfold minus
  rw [h]
  norm_num [zpow_neg]

/-! ## The input adapters -/

/-- The outcome of `touchend` for a tracked swipe while nothing is animating. -/
theorem touchend_tracked (a : App) (x y : ℚ) (hsw : a.isSwiping = true)
    (han : a.nav.isAnimating = false) :
    touchend a x y =
      if (minus a.touchStartX x).abs > JSNum.fin swipeThreshold ∧
          (minus a.touchStartX x).abs > (minus a.touchStartY y).abs then
        if minus a.touchStartX x > JSNum.fin 0 then App.callNext { a with isSwiping := false }
        else App.callPrev { a with isSwiping := false }
      else { a with isSwiping := false } := by
  unfold touchend
  rw [if_neg (by rw [hsw, han]; simp)]

theorem append_singleton_ne_self {α : Type} (l : List α) (c : α) : l ++ [c] ≠ l := by
  intro h
  have := congrArg List.length h
  simp at this

/-- The outcome of `click` outside interactive controls while nothing is
animating. -/
theorem click_page (a : App) (clientX rectLeft rectWidth : ℚ)
    (han : a.nav.isAnimating = false) :
    click a false clientX rectLeft rectWidth =
      if minus clientX rectLeft > (divide rectWidth 3).times 2 then a.callNext
      else if minus clientX rectLeft < divide rectWidth 3 then a.callPrev
      else a := by
  unfold click
  rw [if_neg (by rw [han]; simp), if_neg (by simp)]

/-- The three zones of a click on a book of positive width. -/
theorem click_zones (a : App) (clientX rectLeft w : ℚ) (han : a.nav.isAnimating = false)
    (hw : 0 < w) :
    (minus clientX rectLeft < divide w 3 →
      click a false clientX rectLeft w = a.callPrev) ∧
    (minus clientX rectLeft > (divide w 3).times 2 →
      click a false clientX rectLeft w = a.callNext) ∧
    (divide w 3 ≤ minus clientX rectLeft →
      minus clientX rectLeft ≤ (divide w 3).times 2 →
      click a false clientX rectLeft w = a) := by
  have key := click_page a clientX rectLeft w han
  refine ⟨fun h => ?_, fun h => ?_, fun h1 h2 => ?_⟩
  · have h2 : minus clientX rectLeft < (divide w 3).times 2 :=
      js_lt_of_lt_of_le _ _ _ h (third_le_twoThirds w hw)
    rw [key, if_neg (js_lt_asymm _ _ h2), if_pos h]
  · rw [key, if_pos h]
  · rw [key, if_neg ((js_not_lt _ _).mpr h2), if_neg ((js_not_lt _ _).mpr h1)]

theorem minus_of_eq (a b c : ℚ) (h : a - b = c) (hc : round64 c = .fin c) :
    minus a b = .fin c := by
  unfold minus
  rw [h, hc]

theorem fiveTouched_to_55_60 :
    minus fiveTouched.touchStartX 55 = .fin 45 ∧ minus fiveTouched.touchStartY 60 = .fin (-10) :=
  ⟨minus_of_eq _ _ _ (by norm_num [fiveTouched]) round64_45,
    minus_of_eq _ _ _ (by norm_num [fiveTouched]) round64_neg10⟩

theorem fiveTouched_to_145_40 :
    minus fiveTouched.touchStartX 145 = .fin (-45) ∧ minus fiveTouched.touchStartY 40 = .fin 10 :=
  ⟨minus_of_eq _ _ _ (by norm_num [fiveTouched]) round64_neg45,
    minus_of_eq _ _ _ (by norm_num [fiveTouched]) round64_10⟩

theorem fiveTouched_to_120_50 :
    minus fiveTouched.touchStartX 120 = .fin (-20) ∧ minus fiveTouched.touchStartY 50 = .fin 0 :=
  ⟨minus_of_eq _ _ _ (by norm_num [fiveTouched]) round64_neg20,
    minus_of_eq _ _ _ (by norm_num [fiveTouched]) round64_zero⟩

theorem fiveProbed_to_nearOneThird :
    minus fiveProbed.touchStartX nearOneThird = .fin 40 ∧
    minus fiveProbed.touchStartY 0 = .fin 0 :=
  ⟨minus_near121Thirds_nearOneThird,
    minus_of_eq _ _ _ (by norm_num [fiveProbed]) round64_zero⟩

theorem divide_of_eq (a b c : ℚ) (h : a / b = c) (hc : round64 c = .fin c) :
    divide a b = .fin c := by
  unfold divide
  rw [h, hc]

theorem times_of_eq (a b c : ℚ) (h : a * b = c) (hc : round64 c = .fin c) :
    (JSNum.fin a).times b = .fin c := by
  show round64 (a * b) = JSNum.fin c
  rw [h, hc]

theorem round64_twice_near100Thirds :
    round64 (near100Thirds * 2) = .fin (near100Thirds * 2) :=
  round64_exact (near100Thirds * 2) 6 4691249611844267 (by norm_num) (by norm_num)
    (by norm_num [near100Thirds, abs_of_pos]) (by norm_num [near100Thirds, abs_of_pos])
    (by norm_num [near100Thirds, zpow_neg])

/-- The quotient `100 / 3` rounds up to the double just above it. -/
theorem divide_100_3 : divide 100 3 = .fin near100Thirds := by
  have hn : roundHalfEven ((100 : ℚ) / 3 / (2 : ℚ) ^ ((5 : ℤ) - 52)) =
      4691249611844266 + 1 :=
    roundHalfEven_of_gt _ 4691249611844266 (by norm_num [zpow_neg]) (by norm_num [zpow_neg])
  have h := round64_eval (100 / 3) 5 (4691249611844266 + 1) (by norm_num)
    (by norm_num [abs_of_pos]) (by norm_num [abs_of_pos]) hn
    (by norm_num [zpow_neg]) (by norm_num [zpow_neg])
  unfold divide
  rw [h]
  norm_num [near100Thirds, zpow_neg]

/-- The values the click handler computes for a click at `near340Thirds` on a
book of width `340` at the left edge of the viewport. -/
theorem click_at_near340Thirds :
    minus near340Thirds 0 = .fin near340Thirds ∧
    divide 340 3 = .fin near340Thirds ∧
    (divide 340 3).times 2 = .fin (near340Thirds * 2) :=
  ⟨minus_of_eq _ _ _ (sub_zero _) round64_near340Thirds, divide_340_3, by
    rw [divide_340_3]
    exact times_of_eq _ _ _ rfl round64_twice_near340Thirds⟩

/-- The values the click handler computes for a click at twice `near100Thirds`
on a book of width `100` at the left edge of the viewport. -/
theorem click_at_twice_near100Thirds :
    minus (near100Thirds * 2) 0 = .fin (near100Thirds * 2) ∧
    divide 100 3 = .fin near100Thirds ∧
    (divide 100 3).times 2 = .fin (near100Thirds * 2) :=
  ⟨minus_of_eq _ _ _ (sub_zero _) round64_twice_near100Thirds, divide_100_3, by
    rw [divide_100_3]
    exact times_of_eq _ _ _ rfl round64_twice_near100Thirds⟩

/-- The values the click handler computes on a book of width `300` at the left
edge of the viewport. -/
theorem click_on_width_300 :
    minus 10 0 = .fin 10 ∧ minus 250 0 = .fin 250 ∧ minus 150 0 = .fin 150 ∧
    divide 300 3 = .fin 100 ∧ (divide 300 3).times 2 = .fin 200 := by
  have hd : divide 300 3 = .fin 100 := divide_of_eq _ _ _ (by norm_num) round64_100
  refine ⟨minus_of_eq _ _ _ (by norm_num) round64_10,
    minus_of_eq _ _ _ (by norm_num) round64_250,
    minus_of_eq _ _ _ (by norm_num) round64_150, hd, ?_⟩
  rw [hd]
  exact times_of_eq _ _ _ (by norm_num) round64_200

/-! ## The claims -/

/-- C1: for every page count `N ≥ 1` (the `N` pages of any markup) and every
finite sequence of events from the initial state, where an event is a call
`goTo(t)` with any integer `t`, a call `next()`, a call `previous()`, the firing
of the earliest pending timer or the passing of time, `currentPage` satisfies
`0 ≤ currentPage ≤ N - 1`.  As the sequence is arbitrary, this holds after every
event of every run. -/
theorem C1_currentPage_in_range (markup : List Page) (ins : Option Instruction)
    (v : Bool) (hN : 1 ≤ markup.length) (es : List Event) :
    0 ≤ (run (initialState markup ins v) es).currentPage ∧
    (run (initialState markup ins v) es).currentPage ≤ (markup.length : Int) - 1 := by
  have h := inv_run _ es (inv_initialState markup ins v hN)
  have hu := h.upper
  rw [run_totalPages, initialState_totalPages] at hu
  exact ⟨h.lower, by omega⟩

theorem C1_currentPage_in_range_witness :
    1 ≤ fivePages.length ∧
    0 ≤ (run fiveStart [.next, .fire, .goTo 7, .fire, .goTo 4, .previous, .goTo (-1)]).currentPage ∧
    (run fiveStart [.next, .fire, .goTo 7, .fire, .goTo 4, .previous, .goTo (-1)]).currentPage
      ≤ (fivePages.length : Int) - 1 :=
  ⟨by decide, C1_currentPage_in_range fivePages (some ⟨false, false⟩) true (by decide) _⟩

/-- C2: for every `N ≥ 1` and every markup without stale transition classes, in
every state reachable from the initial state by `goTo`/`next`/`previous` calls,
timer firings and the passing of time, whenever `isAnimating` is false: the page
at `currentPage` exists and carries `active` only, a page carries `active` exactly
when it is the page at `currentPage` (so exactly one page is Active), every page
before `currentPage` is Behind and every page after it is Idle. -/
theorem C2_settled_page_states (markup : List Page) (ins : Option Instruction)
    (v : Bool) (hN : 1 ≤ markup.length) (hm : CleanMarkup markup) (es : List Event)
    (hs : (run (initialState markup ins v) es).isAnimating = false) :
    (∃ p, (run (initialState markup ins v) es).pages[
        (run (initialState markup ins v) es).currentPage.toNat]? = some p ∧ p.isActiveOnly) ∧
    (∀ (i : Nat) (p : Page), (run (initialState markup ins v) es).pages[i]? = some p →
      (p.isActive ↔ (i : Int) = (run (initialState markup ins v) es).currentPage)) ∧
    (∀ (i : Nat) (p : Page), (run (initialState markup ins v) es).pages[i]? = some p →
      (i : Int) < (run (initialState markup ins v) es).currentPage → p.isBehind) ∧
    (∀ (i : Nat) (p : Page), (run (initialState markup ins v) es).pages[i]? = some p →
      (i : Int) > (run (initialState markup ins v) es).currentPage → p.isIdle) := by
  have hi := inv_run _ es (inv_initialState markup ins v hN)
  have hp := pagesSettled_run _ es (inv_initialState markup ins v hN)
    (pagesSettled_initialState markup ins v hm) hs
  refine ⟨?_, ?_, ?_, ?_⟩
  · obtain ⟨p, hp1⟩ := getElem?_toNat_of_range _ _ hi.lower hi.upper
    refine ⟨p, hp1, ?_⟩
    exact (reconciled_page_spec _ _ hp _ p hp1).2.1 (Int.toNat_of_nonneg hi.lower)
  · intro i p h1
    exact reconciled_active_iff _ _ hp i p h1
  · intro i p h1 h2
    exact (reconciled_page_spec _ _ hp i p h1).1 h2
  · intro i p h1 h2
    exact (reconciled_page_spec _ _ hp i p h1).2.2 h2

theorem C2_settled_page_states_witness :
    1 ≤ fivePages.length ∧ CleanMarkup fivePages ∧
    (run fiveStart [.next, .fire, .fire, .goTo 3, .fire, .fire, .fire]).isAnimating = false ∧
    (run fiveStart [.next, .fire, .fire, .goTo 3, .fire, .fire, .fire]).currentPage = 3 ∧
    (run fiveStart [.next, .fire, .fire, .goTo 3, .fire, .fire, .fire]).pages =
      [⟨false, true, false, false, 5⟩, ⟨false, true, false, false, 4⟩,
       ⟨false, true, false, false, 3⟩, ⟨true, false, false, false, 2⟩,
       ⟨false, false, false, false, 1⟩] ∧
    Page.isBehind ⟨false, true, false, false, 4⟩ ∧
    (Page.isActive ⟨true, false, false, false, 2⟩ ↔
      ((3 : Nat) : Int) =
        (run fiveStart [.next, .fire, .fire, .goTo 3, .fire, .fire, .fire]).currentPage) ∧
    Page.isIdle ⟨false, false, false, false, 1⟩ :=
  have h := C2_settled_page_states fivePages (some ⟨false, false⟩) true (by decide) (by decide)
    [.next, .fire, .fire, .goTo 3, .fire, .fire, .fire] (by decide)
  ⟨by decide, by decide, by decide, by decide, by decide,
    h.2.2.1 1 ⟨false, true, false, false, 4⟩ (by decide) (by decide),
    h.2.1 3 ⟨true, false, false, false, 2⟩ (by decide),
    h.2.2.2 4 ⟨false, false, false, false, 1⟩ (by decide) (by decide)⟩

/-- C3: for every state and every integer `t`, `goToPage t` leaves the whole
state unchanged (`currentPage`, `isAnimating`, every page, the pending timers,
the effect trace and all the rest) if and only if `t < 0`, or `t ≥ N`, or
`t = currentPage`, or `isAnimating` is true; it even leaves `isAnimating`
unchanged only in these cases.  In every other case `isAnimating` goes from false
to true, and, `currentPage` being a valid position, a flip callback is scheduled
after the flip duration, the reconciliation towards `t` 50 ms later, and the
haptic pulse (where supported) and the page sound are fired.  In particular
`goToPage currentPage` is a no-op, and a `goToPage` issued while `isAnimating` is
true changes neither `currentPage` nor any page. -/
theorem C3_goTo_rejected_iff (s : State) (t : Int) :
    (goToPage s t = s ↔
      (t < 0 ∨ t ≥ s.totalPages ∨ t = s.currentPage ∨ s.isAnimating = true)) ∧
    ((goToPage s t).isAnimating = s.isAnimating ↔
      (t < 0 ∨ t ≥ s.totalPages ∨ t = s.currentPage ∨ s.isAnimating = true)) ∧
    (¬ (t < 0 ∨ t ≥ s.totalPages ∨ t = s.currentPage ∨ s.isAnimating = true) →
      s.isAnimating = false ∧ (goToPage s t).isAnimating = true) ∧
    (¬ (t < 0 ∨ t ≥ s.totalPages ∨ t = s.currentPage ∨ s.isAnimating = true) →
      0 ≤ s.currentPage → s.currentPage < s.totalPages →
      (∃ f : Callback, f.isFlip = true ∧
        (goToPage s t).timers =
          insertTimer ⟨s.now + (flipDuration + 50), .reconcile t⟩
            (insertTimer ⟨s.now + flipDuration, f⟩ s.timers)) ∧
      (goToPage s t).effects =
        s.effects ++ (if s.canVibrate = true then [Effect.vibrate 10] else []) ++
          [Effect.pageSound]) ∧
    goToPage s s.currentPage = s ∧
    (s.isAnimating = true →
      (goToPage s t).currentPage = s.currentPage ∧ (goToPage s t).pages = s.pages) := by
  have hacc : ¬ (t < 0 ∨ t ≥ s.totalPages ∨ t = s.currentPage ∨ s.isAnimating = true) →
      s.isAnimating = false ∧ (goToPage s t).isAnimating = true := by
    intro hg
    refine ⟨?_, goToPage_isAnimating_of_accepted s t hg⟩
    rcases Bool.eq_false_or_eq_true s.isAnimating with hb | hb
    · exact absurd (Or.inr (Or.inr (Or.inr hb))) hg
    · exact hb
  have hiff : (goToPage s t).isAnimating = s.isAnimating ↔
      (t < 0 ∨ t ≥ s.totalPages ∨ t = s.currentPage ∨ s.isAnimating = true) := by
    constructor
    · intro h
      by_contra hg
      obtain ⟨h1, h2⟩ := hacc hg
      rw [h1, h2] at h
      cases h
    · intro hg
      rw [goToPage_rejected s t hg]
  refine ⟨?_, hiff, hacc, ?_, ?_, ?_⟩
  · constructor
    · intro h
      exact hiff.mp (by rw [h])
    · exact goToPage_rejected s t
  · intro hg hc0 hcN
    have ht0 : 0 ≤ t := by
      by_contra hh; exact hg (Or.inl (by omega))
    have htN : t < s.totalPages := by
      by_contra hh; exact hg (Or.inr (Or.inl (by omega)))
    have hne : t ≠ s.currentPage := fun hh => hg (Or.inr (Or.inr (Or.inl hh)))
    exact goToPage_starts s t (hacc hg).1 hc0 hcN ht0 htN hne
  · exact goToPage_rejected s _ (Or.inr (Or.inr (Or.inl rfl)))
  · intro ha
    rw [goToPage_rejected s t (Or.inr (Or.inr (Or.inr ha)))]
    exact ⟨rfl, rfl⟩

theorem C3_goTo_rejected_iff_witness :
    ¬ ((1 : Int) < 0 ∨ (1 : Int) ≥ fiveStart.totalPages ∨ (1 : Int) = fiveStart.currentPage ∨
        fiveStart.isAnimating = true) ∧
    fiveStart.isAnimating = false ∧ (goToPage fiveStart 1).isAnimating = true :=
  ⟨by decide, (C3_goTo_rejected_iff fiveStart 1).2.2.1 (by decide)⟩

/-- C4: for every accepted `goToPage a` from a settled reachable state: whatever
events follow it before its reconciliation timer fires (calls of `goToPage`,
`nextPage` and `prevPage` in any number and with any arguments, before or after
the flip timer fires, interleaved with timer firings and time passing), every
call is dropped: the state reached is the state reached by the same events
without the calls.  So the state after the reconciliation timer fires is the one
reached when no call is issued, with `currentPage = a`, `isAnimating` false, the
pages reconciled to `a` and no transition callback left pending (nothing was
queued).  In particular a second `goToPage` right after the first returns the
state unchanged. -/
theorem C4_calls_dropped_mid_transition (markup : List Page)
    (ins : Option Instruction) (v : Bool) (hN : 1 ≤ markup.length) (es : List Event)
    (s : State) (hs : s = run (initialState markup ins v) es)
    (ha : s.isAnimating = false)
    (a : Int) (ha0 : 0 ≤ a) (haN : a < (markup.length : Int)) (hne : a ≠ s.currentPage)
    (fs : List Event) (hmid : midFlight (goToPage s a) fs = true) :
    run (goToPage s a) fs = run (goToPage s a) (withoutCalls fs) ∧
    midFlight (goToPage s a) (withoutCalls fs) = true ∧
    fire (run (goToPage s a) fs) = fire (run (goToPage s a) (withoutCalls fs)) ∧
    (reconcileDue (run (goToPage s a) fs) = true →
      (fire (run (goToPage s a) fs)).currentPage = a ∧
      (fire (run (goToPage s a) fs)).isAnimating = false ∧
      (fire (run (goToPage s a) fs)).pages = reconcilePages a s.pages ∧
      navCallbacks (fire (run (goToPage s a) fs)).timers = []) ∧
    (∀ b : Int, goToPage (goToPage s a) b = goToPage s a) := by
  have hi : Inv s := by rw [hs]; exact inv_run _ es (inv_initialState markup ins v hN)
  have hT : s.totalPages = (markup.length : Int) := by
    rw [hs, run_totalPages, initialState_totalPages]
  obtain ⟨h1, ⟨f, hf, h2⟩, -⟩ :=
    goToPage_accepted s a ha hi.lower hi.upper ha0 (by omega) hne (hi.settled ha)
  obtain ⟨k1, k2, k3, k4, k5⟩ :=
    midFlight_run (goToPage s a) a h1 (Or.inr ⟨f, hf, h2⟩) fs hmid
  refine ⟨k4, k5, by rw [← k4], ?_, ?_⟩
  · intro hd
    rcases fire_inFlight _ a k1 k3 with ⟨h0, -⟩ | ⟨-, a1, a2, a3, -, a5⟩
    · rw [hd] at h0; cases h0
    · refine ⟨a2, a1, ?_, a5⟩
      rw [a3]
      apply reconcilePages_congr
      rw [run_zIndex, goToPage_zIndex]
  · intro b
    exact goToPage_rejected _ b (Or.inr (Or.inr (Or.inr h1)))

theorem C4_calls_dropped_mid_transition_witness :
    1 ≤ fivePages.length ∧ fiveStart.isAnimating = false ∧
    midFlight (goToPage fiveStart 2)
      [.goTo 4, .next, .fire, .previous, .goTo 0, .elapse 10, .next] = true ∧
    reconcileDue (run (goToPage fiveStart 2)
      [.goTo 4, .next, .fire, .previous, .goTo 0, .elapse 10, .next]) = true ∧
    run (goToPage fiveStart 2) [.goTo 4, .next, .fire, .previous, .goTo 0, .elapse 10, .next] =
      run (goToPage fiveStart 2) [.fire, .elapse 10] ∧
    (fire (run (goToPage fiveStart 2)
      [.goTo 4, .next, .fire, .previous, .goTo 0, .elapse 10, .next])).currentPage = 2 ∧
    goToPage (goToPage fiveStart 2) 4 = goToPage fiveStart 2 :=
  have h := C4_calls_dropped_mid_transition fivePages (some ⟨false, false⟩) true
    (by decide) [] fiveStart rfl (by decide) 2 (by decide) (by decide) (by decide)
    [.goTo 4, .next, .fire, .previous, .goTo 0, .elapse 10, .next] (by decide)
  ⟨by decide, by decide, by decide, by decide, h.1, (h.2.2.2.1 (by decide)).1, h.2.2.2.2 4⟩

/-- C5: in every state, animating or not, `nextPage` called when
`currentPage = N - 1` returns the state unchanged (`currentPage`, `isAnimating`,
the pages, the pending timers, the disabled flag of the next button and all the
rest), and `prevPage` called when `currentPage = 0` returns the state
unchanged. -/
theorem C5_boundary_calls_noop (s : State) :
    (s.currentPage = s.totalPages - 1 →
      nextPage s = s ∧ (nextPage s).nextDisabled = s.nextDisabled) ∧
    (s.currentPage = 0 → prevPage s = s) := by
  constructor
  · intro h
    have : nextPage s = s := by
      unfold nextPage
      rw [if_neg]
      rintro ⟨h1, -⟩
      omega
    rw [this]
    exact ⟨rfl, rfl⟩
  · intro h
    unfold prevPage
    rw [if_neg]
    rintro ⟨h1, -⟩
    omega

theorem C5_boundary_calls_noop_witness :
    (settle (goToPage fiveStart 4)).currentPage = (settle (goToPage fiveStart 4)).totalPages - 1 ∧
    (settle (goToPage fiveStart 4)).nextDisabled = true ∧
    nextPage (settle (goToPage fiveStart 4)) = settle (goToPage fiveStart 4) ∧
    (nextPage (settle (goToPage fiveStart 4))).nextDisabled =
      (settle (goToPage fiveStart 4)).nextDisabled ∧
    fiveStart.currentPage = 0 ∧
    prevPage fiveStart = fiveStart :=
  ⟨by decide, by decide,
    ((C5_boundary_calls_noop (settle (goToPage fiveStart 4))).1 (by decide)).1,
    ((C5_boundary_calls_noop (settle (goToPage fiveStart 4))).1 (by decide)).2,
    by decide, (C5_boundary_calls_noop fiveStart).2 (by decide)⟩

/-- C6: for every markup of `N ≥ 1` pages, every settled reachable state `s` and
every target `t` with `0 ≤ t ≤ N - 1` and `t ≠ currentPage` (forward or backward,
adjacent or not; such a `t` exists only when `N ≥ 2`): after `goToPage t` and the
firing of the pending timers up to the reconciliation, `currentPage = t`,
`isAnimating` is false, every page before `t` is Behind, page `t` carries `active`
only, every page after `t` is Idle, no page carries a turning class, there are
still `N` pages, the indicator shows `t + 1`, the previous button is disabled
exactly when `t = 0` and the next button exactly when `t = N - 1`.  When
`t = currentPage + 1` the call `nextPage()` is this `goToPage t`, and when
`t = currentPage - 1` the call `prevPage()` is. -/
theorem C6_transition_result (markup : List Page) (ins : Option Instruction) (v : Bool)
    (hN : 1 ≤ markup.length) (es : List Event) (s : State)
    (hs : s = run (initialState markup ins v) es) (ha : s.isAnimating = false)
    (t : Int) (ht0 : 0 ≤ t) (htN : t ≤ (markup.length : Int) - 1) (hne : t ≠ s.currentPage) :
    (settle (goToPage s t)).currentPage = t ∧
    (settle (goToPage s t)).isAnimating = false ∧
    (∀ (i : Nat) (p : Page), (settle (goToPage s t)).pages[i]? = some p →
      ((i : Int) < t → p.isBehind) ∧ ((i : Int) = t → p.isActiveOnly) ∧
      ((i : Int) > t → p.isIdle) ∧ ¬ p.isTurning) ∧
    (settle (goToPage s t)).pages.length = markup.length ∧
    (settle (goToPage s t)).indicator = t + 1 ∧
    ((settle (goToPage s t)).prevDisabled = true ↔ t = 0) ∧
    ((settle (goToPage s t)).nextDisabled = true ↔ t = (markup.length : Int) - 1) ∧
    (t = s.currentPage + 1 → nextPage s = goToPage s t) ∧
    (t = s.currentPage - 1 → prevPage s = goToPage s t) := by
  have hi : Inv s := by rw [hs]; exact inv_run _ es (inv_initialState markup ins v hN)
  have hT : s.totalPages = (markup.length : Int) := by
    rw [hs, run_totalPages, initialState_totalPages]
  obtain ⟨k1, k2, k3, k4, k5, k6⟩ :=
    transition_settles s t ha hi.lower hi.upper ht0 (by omega) hne (hi.settled ha)
  have hlen : (settle (goToPage s t)).pages.length = markup.length := by
    have := k6
    rw [hT] at this
    unfold State.totalPages at this
    exact_mod_cast this
  obtain ⟨d1, d2, d3, -, -⟩ := k4
  refine ⟨k2, k1, ?_, hlen, ?_, ?_, ?_, ?_, ?_⟩
  · intro i p hp
    rw [k3] at hp
    obtain ⟨a, b, c⟩ := reconcilePages_page_spec t s.pages i p hp
    refine ⟨a, b, c, ?_⟩
    rcases lt_trichotomy (i : Int) t with h | h | h
    · exact not_isTurning_of_state p (Or.inl (a h))
    · exact not_isTurning_of_state p (Or.inr (Or.inl (b h)))
    · exact not_isTurning_of_state p (Or.inr (Or.inr (c h)))
  · rw [d1, k2]
  · rw [d2, k2]; simp
  · rw [d3, k2, k6, hT]; simp
  · intro h
    unfold nextPage
    rw [if_pos ⟨by omega, ha⟩, h]
  · intro h
    unfold prevPage
    rw [if_pos ⟨by omega, ha⟩, h]

theorem C6_transition_result_witness :
    1 ≤ fivePages.length ∧ fiveStart.isAnimating = false ∧ fiveStart.currentPage = 0 ∧
    nextPage fiveStart = goToPage fiveStart 1 ∧
    (settle (nextPage fiveStart)).currentPage = 1 ∧
    (settle (goToPage fiveStart 1)).currentPage = 1 ∧
    (settle (goToPage fiveStart 1)).isAnimating = false ∧
    (settle (goToPage fiveStart 1)).pages =
      [⟨false, true, false, false, 5⟩, ⟨true, false, false, false, 4⟩,
       ⟨false, false, false, false, 3⟩, ⟨false, false, false, false, 2⟩,
       ⟨false, false, false, false, 1⟩] ∧
    Page.isBehind ⟨false, true, false, false, 5⟩ ∧
    Page.isActiveOnly ⟨true, false, false, false, 4⟩ ∧
    Page.isIdle ⟨false, false, false, false, 3⟩ ∧
    (settle (goToPage fiveStart 1)).pages.length = 5 ∧
    (settle (goToPage fiveStart 1)).indicator = 2 ∧
    (settle (goToPage fiveStart 1)).prevDisabled = false ∧
    (settle (goToPage fiveStart 1)).nextDisabled = false :=
  have h := C6_transition_result fivePages (some ⟨false, false⟩) true (by decide) []
    fiveStart rfl (by decide) 1 (by decide) (by decide) (by decide)
  ⟨by decide, by decide, by decide, h.2.2.2.2.2.2.2.1 (by decide), by decide, h.1, h.2.1,
    by decide,
    (h.2.2.1 0 ⟨false, true, false, false, 5⟩ (by decide)).1 (by decide),
    (h.2.2.1 1 ⟨true, false, false, false, 4⟩ (by decide)).2.1 (by decide),
    (h.2.2.1 2 ⟨false, false, false, false, 3⟩ (by decide)).2.2.1 (by decide),
    h.2.2.2.1, h.2.2.2.2.1, by decide, by decide⟩

/-- C7, amended: for every `touchend` that ends a tracked swipe (`isSwiping`)
while no transition is animating, with `dx` the double `touchStartX - endX` and
`dy` the double `|touchStartY - endY|` that the handler computes: if `|dx| > 40`
and `|dx| > dy`, exactly one navigation call is made, `nextPage()` when `dx > 0`
and `prevPage()` when `dx < 0`; otherwise (`|dx| ≤ 40` or `|dx| ≤ dy`) no
navigation call is made and the navigator is untouched.  So a swipe with
`|dx| = 45` and `dy = 10` makes exactly one call, chosen by the sign of `dx`, and
a swipe with `|dx| = 20` makes none.  Wherever both subtractions are exact, the
same holds of the exact differences. -/
theorem C7_swipe_navigation (a : App) (x y : ℚ) (hsw : a.isSwiping = true)
    (han : a.nav.isAnimating = false) :
    ((minus a.touchStartX x).abs > JSNum.fin 40 ∧
        (minus a.touchStartX x).abs > (minus a.touchStartY y).abs →
      (minus a.touchStartX x > JSNum.fin 0 →
        (touchend a x y).navCalls = a.navCalls ++ [.next] ∧
        (touchend a x y).nav = nextPage a.nav) ∧
      (minus a.touchStartX x < JSNum.fin 0 →
        (touchend a x y).navCalls = a.navCalls ++ [.previous] ∧
        (touchend a x y).nav = prevPage a.nav)) ∧
    ((minus a.touchStartX x).abs ≤ JSNum.fin 40 ∨
        (minus a.touchStartX x).abs ≤ (minus a.touchStartY y).abs →
      (touchend a x y).navCalls = a.navCalls ∧ (touchend a x y).nav = a.nav) ∧
    ((minus a.touchStartX x).abs = JSNum.fin 45 ∧
        (minus a.touchStartY y).abs = JSNum.fin 10 →
      ∃ c : NavCall, (touchend a x y).navCalls = a.navCalls ++ [c] ∧
        (c = .next ↔ minus a.touchStartX x > JSNum.fin 0) ∧
        (c = .previous ↔ minus a.touchStartX x < JSNum.fin 0)) ∧
    ((minus a.touchStartX x).abs = JSNum.fin 20 →
      (touchend a x y).navCalls = a.navCalls) ∧
    (minus a.touchStartX x = JSNum.fin (a.touchStartX - x) →
      minus a.touchStartY y = JSNum.fin (a.touchStartY - y) →
      (|a.touchStartX - x| > 40 ∧ |a.touchStartX - x| > |a.touchStartY - y| →
        (a.touchStartX - x > 0 → (touchend a x y).navCalls = a.navCalls ++ [.next]) ∧
        (a.touchStartX - x < 0 → (touchend a x y).navCalls = a.navCalls ++ [.previous])) ∧
      (|a.touchStartX - x| ≤ 40 ∨ |a.touchStartX - x| ≤ |a.touchStartY - y| →
        (touchend a x y).navCalls = a.navCalls)) := by
  have key := touchend_tracked a x y hsw han
  have hnext : (minus a.touchStartX x).abs > JSNum.fin 40 ∧
      (minus a.touchStartX x).abs > (minus a.touchStartY y).abs →
      minus a.touchStartX x > JSNum.fin 0 →
      (touchend a x y).navCalls = a.navCalls ++ [.next] ∧
        (touchend a x y).nav = nextPage a.nav := by
    intro h hpos
    rw [key, if_pos (by unfold swipeThreshold; exact h), if_pos hpos]
    exact ⟨rfl, rfl⟩
  have hprev : (minus a.touchStartX x).abs > JSNum.fin 40 ∧
      (minus a.touchStartX x).abs > (minus a.touchStartY y).abs →
      minus a.touchStartX x < JSNum.fin 0 →
      (touchend a x y).navCalls = a.navCalls ++ [.previous] ∧
        (touchend a x y).nav = prevPage a.nav := by
    intro h hneg
    rw [key, if_pos (by unfold swipeThreshold; exact h), if_neg (js_lt_asymm _ _ hneg)]
    exact ⟨rfl, rfl⟩
  have hnone : (minus a.touchStartX x).abs ≤ JSNum.fin 40 ∨
      (minus a.touchStartX x).abs ≤ (minus a.touchStartY y).abs →
      (touchend a x y).navCalls = a.navCalls ∧ (touchend a x y).nav = a.nav := by
    intro h
    rw [key, if_neg]
    · exact ⟨rfl, rfl⟩
    · unfold swipeThreshold
      rintro ⟨h1, h2⟩
      rcases h with h | h
      · exact (js_not_lt _ _).mpr h h1
      · exact (js_not_lt _ _).mpr h h2
  refine ⟨fun h => ⟨hnext h, hprev h⟩, hnone, ?_, ?_, ?_⟩
  · rintro ⟨h1, h2⟩
    have hb : (minus a.touchStartX x).abs > JSNum.fin 40 ∧
        (minus a.touchStartX x).abs > (minus a.touchStartY y).abs := by
      rw [h1, h2]
      exact ⟨(js_fin_lt_fin _ _).mpr (by norm_num), (js_fin_lt_fin _ _).mpr (by norm_num)⟩
    by_cases hpos : minus a.touchStartX x > JSNum.fin 0
    · refine ⟨.next, (hnext hb hpos).1, ⟨fun _ => hpos, fun _ => rfl⟩, ?_⟩
      constructor
      · intro h; cases h
      · intro h; exact absurd hpos (js_lt_asymm _ _ h)
    · have hneg : minus a.touchStartX x < JSNum.fin 0 :=
        js_abs_pos_of_lt _ 40 (by norm_num) hb.1 hpos
      refine ⟨.previous, (hprev hb hneg).1, ?_, ⟨fun _ => hneg, fun _ => rfl⟩⟩
      constructor
      · intro h; cases h
      · intro h; exact absurd h hpos
  · intro h
    refine (hnone (Or.inl ?_)).1
    rw [h]
    exact (js_fin_le_fin _ _).mpr (by norm_num)
  · intro ex ey
    have hax : (minus a.touchStartX x).abs = JSNum.fin |a.touchStartX - x| := by rw [ex]; rfl
    have hay : (minus a.touchStartY y).abs = JSNum.fin |a.touchStartY - y| := by rw [ey]; rfl
    refine ⟨fun h => ⟨fun hpos => ?_, fun hneg => ?_⟩, fun h => ?_⟩
    · refine (hnext ?_ ?_).1
      · rw [hax, hay]
        exact ⟨(js_fin_lt_fin _ _).mpr h.1, (js_fin_lt_fin _ _).mpr h.2⟩
      · rw [ex]; exact (js_fin_lt_fin _ _).mpr hpos
    · refine (hprev ?_ ?_).1
      · rw [hax, hay]
        exact ⟨(js_fin_lt_fin _ _).mpr h.1, (js_fin_lt_fin _ _).mpr h.2⟩
      · rw [ex]; exact (js_fin_lt_fin _ _).mpr hneg
    · refine (hnone ?_).1
      rw [hax, hay]
      rcases h with h | h
      · exact Or.inl ((js_fin_le_fin _ _).mpr h)
      · exact Or.inr ((js_fin_le_fin _ _).mpr h)

theorem C7_swipe_navigation_witness :
    fiveTouched.isSwiping = true ∧ fiveTouched.nav.isAnimating = false ∧
    (touchend fiveTouched 55 60).navCalls = [.next] ∧
    (touchend fiveTouched 145 40).navCalls = [.previous] ∧
    (touchend fiveTouched 120 50).navCalls = [] ∧
    (touchend fiveProbed nearOneThird 0).navCalls = [] :=
  ⟨rfl, by decide,
    (((C7_swipe_navigation fiveTouched 55 60 rfl (by decide)).1
      (by
        rw [fiveTouched_to_55_60.1, fiveTouched_to_55_60.2]
        exact ⟨(js_fin_lt_fin _ _).mpr (by norm_num [abs_of_pos]),
          (js_fin_lt_fin _ _).mpr (by norm_num [abs_of_pos])⟩)).1
      (by rw [fiveTouched_to_55_60.1]; exact (js_fin_lt_fin _ _).mpr (by norm_num))).1,
    (((C7_swipe_navigation fiveTouched 145 40 rfl (by decide)).1
      (by
        rw [fiveTouched_to_145_40.1, fiveTouched_to_145_40.2]
        exact ⟨(js_fin_lt_fin _ _).mpr (by norm_num [abs_of_pos]),
          (js_fin_lt_fin _ _).mpr (by norm_num [abs_of_pos])⟩)).2
      (by rw [fiveTouched_to_145_40.1]; exact (js_fin_lt_fin _ _).mpr (by norm_num))).1,
    (C7_swipe_navigation fiveTouched 120 50 rfl (by decide)).2.2.2.1
      (by rw [fiveTouched_to_120_50.1]; simp [JSNum.abs]),
    ((C7_swipe_navigation fiveProbed nearOneThird 0 rfl (by decide)).2.1
      (Or.inl (by
        rw [fiveProbed_to_nearOneThird.1]
        exact (js_fin_le_fin _ _).mpr (by norm_num [abs_of_pos])))).1⟩

/-- C7 as stated, with exact differences, fails: from the double nearest to
`121/3` to the double nearest to `1/3` (no vertical movement) the exact
horizontal difference `40 + 43 / 2 ^ 54` exceeds `40` and the vertical one, and
is positive, yet the handler, whose double difference is `40`, makes no call. -/
theorem C7_exact_difference_counterexample :
    fiveProbed.isSwiping = true ∧ fiveProbed.nav.isAnimating = false ∧
    round64 fiveProbed.touchStartX = .fin fiveProbed.touchStartX ∧
    round64 nearOneThird = .fin nearOneThird ∧
    |fiveProbed.touchStartX - nearOneThird| > 40 ∧
    |fiveProbed.touchStartX - nearOneThird| > |fiveProbed.touchStartY - 0| ∧
    fiveProbed.touchStartX - nearOneThird > 0 ∧
    (touchend fiveProbed nearOneThird 0).navCalls = [] ∧
    (touchend fiveProbed nearOneThird 0).nav = fiveProbed.nav := by
  have key := touchend_tracked fiveProbed nearOneThird 0 rfl (by decide)
  have hno : ¬ ((minus fiveProbed.touchStartX nearOneThird).abs > JSNum.fin swipeThreshold ∧
      (minus fiveProbed.touchStartX nearOneThird).abs >
        (minus fiveProbed.touchStartY 0).abs) := by
    rintro ⟨h, -⟩
    rw [fiveProbed_to_nearOneThird.1] at h
    have := (js_fin_lt_fin _ _).mp h
    norm_num [swipeThreshold, abs_of_pos] at this
  rw [if_neg hno] at key
  refine ⟨rfl, by decide, round64_near121Thirds, round64_nearOneThird, ?_, ?_, ?_, ?_, ?_⟩
  · norm_num [fiveProbed, near121Thirds, nearOneThird, abs_of_pos]
  · norm_num [fiveProbed, near121Thirds, nearOneThird, abs_of_pos]
  · norm_num [fiveProbed, near121Thirds, nearOneThird]
  · rw [key]; rfl
  · rw [key]

/-- C8, amended: for every click on the book made while no transition is
animating and whose target is not inside a button, link or input, with `x` the
double `clientX - left`, `t` the double `w / 3` and `t * 2` its double, as the
handler computes them from a width `w > 0`: `prevPage()` is called (once) exactly
when `x < t`, `nextPage()` is called (once) exactly when `x > t * 2`, and no
navigation call is made exactly when `t ≤ x ≤ t * 2`; the two calls are never
both made for one click.  Wherever the subtraction, the division and the
doubling are exact, the same holds of the exact `x`, `w / 3` and `2 w / 3`. -/
theorem C8_click_thirds (a : App) (clientX rectLeft w : ℚ)
    (han : a.nav.isAnimating = false) (hw : 0 < w) :
    ((click a false clientX rectLeft w).navCalls = a.navCalls ++ [.previous] ↔
      minus clientX rectLeft < divide w 3) ∧
    ((click a false clientX rectLeft w).navCalls = a.navCalls ++ [.next] ↔
      minus clientX rectLeft > (divide w 3).times 2) ∧
    ((click a false clientX rectLeft w).navCalls = a.navCalls ↔
      (divide w 3 ≤ minus clientX rectLeft ∧
        minus clientX rectLeft ≤ (divide w 3).times 2)) ∧
    (minus clientX rectLeft < divide w 3 →
      (click a false clientX rectLeft w).nav = prevPage a.nav) ∧
    (minus clientX rectLeft > (divide w 3).times 2 →
      (click a false clientX rectLeft w).nav = nextPage a.nav) ∧
    (divide w 3 ≤ minus clientX rectLeft ∧ minus clientX rectLeft ≤ (divide w 3).times 2 →
      (click a false clientX rectLeft w).nav = a.nav) ∧
    ¬ (∃ l₁ l₂ : List NavCall, (click a false clientX rectLeft w).navCalls =
        a.navCalls ++ l₁ ++ l₂ ∧ NavCall.next ∈ l₁ ++ l₂ ∧ NavCall.previous ∈ l₁ ++ l₂) ∧
    (minus clientX rectLeft = JSNum.fin (clientX - rectLeft) →
      divide w 3 = JSNum.fin (w / 3) →
      (JSNum.fin (w / 3)).times 2 = JSNum.fin (2 * w / 3) →
      ((click a false clientX rectLeft w).navCalls = a.navCalls ++ [.previous] ↔
        clientX - rectLeft < w / 3) ∧
      ((click a false clientX rectLeft w).navCalls = a.navCalls ++ [.next] ↔
        clientX - rectLeft > 2 * w / 3) ∧
      ((click a false clientX rectLeft w).navCalls = a.navCalls ↔
        (w / 3 ≤ clientX - rectLeft ∧ clientX - rectLeft ≤ 2 * w / 3))) := by
  obtain ⟨zp, zn, zm⟩ := click_zones a clientX rectLeft w han hw
  have hle := third_le_twoThirds w hw
  have main :
      ((click a false clientX rectLeft w).navCalls = a.navCalls ++ [.previous] ↔
        minus clientX rectLeft < divide w 3) ∧
      ((click a false clientX rectLeft w).navCalls = a.navCalls ++ [.next] ↔
        minus clientX rectLeft > (divide w 3).times 2) ∧
      ((click a false clientX rectLeft w).navCalls = a.navCalls ↔
        (divide w 3 ≤ minus clientX rectLeft ∧
          minus clientX rectLeft ≤ (divide w 3).times 2)) ∧
      ¬ (∃ l₁ l₂ : List NavCall, (click a false clientX rectLeft w).navCalls =
          a.navCalls ++ l₁ ++ l₂ ∧ NavCall.next ∈ l₁ ++ l₂ ∧
          NavCall.previous ∈ l₁ ++ l₂) := by
    by_cases h : minus clientX rectLeft < divide w 3
    · -- left third
      have hn : ¬ minus clientX rectLeft > (divide w 3).times 2 :=
        js_lt_asymm _ _ (js_lt_of_lt_of_le _ _ _ h hle)
      have hm : ¬ divide w 3 ≤ minus clientX rectLeft := fun h2 => (js_not_lt _ _).mpr h2 h
      rw [zp h]
      refine ⟨⟨fun _ => h, fun _ => rfl⟩, ⟨fun h2 => ?_, fun h2 => absurd h2 hn⟩,
        ⟨fun h2 => ?_, fun h2 => absurd h2.1 hm⟩, ?_⟩
      · simp [App.callPrev] at h2
      · exact absurd h2 (append_singleton_ne_self _ _)
      · rintro ⟨l₁, l₂, h1, h2, h3⟩
        simp only [App.callPrev, List.append_assoc, List.append_cancel_left_eq] at h1
        rw [← h1] at h2
        simp at h2
    · by_cases hr : minus clientX rectLeft > (divide w 3).times 2
      · -- right third
        have hm : ¬ minus clientX rectLeft ≤ (divide w 3).times 2 :=
          fun h2 => (js_not_lt _ _).mpr h2 hr
        rw [zn hr]
        refine ⟨⟨fun h2 => ?_, fun h2 => absurd h2 h⟩, ⟨fun _ => hr, fun _ => rfl⟩,
          ⟨fun h2 => ?_, fun h2 => absurd h2.2 hm⟩, ?_⟩
        · simp [App.callNext] at h2
        · exact absurd h2 (append_singleton_ne_self _ _)
        · rintro ⟨l₁, l₂, h1, -, h3⟩
          simp only [App.callNext, List.append_assoc, List.append_cancel_left_eq] at h1
          rw [← h1] at h3
          simp at h3
      · -- middle third
        have h1 := (js_not_lt _ _).mp h
        have h2 := (js_not_lt _ _).mp hr
        rw [zm h1 h2]
        refine ⟨⟨fun h3 => ?_, fun h3 => absurd h3 h⟩, ⟨fun h3 => ?_, fun h3 => absurd h3 hr⟩,
          ⟨fun _ => ⟨h1, h2⟩, fun _ => rfl⟩, ?_⟩
        · exact absurd h3.symm (append_singleton_ne_self _ _)
        · exact absurd h3.symm (append_singleton_ne_self _ _)
        · rintro ⟨l₁, l₂, h3, h4, -⟩
          have : l₁ ++ l₂ = [] := by
            rw [List.append_assoc] at h3
            exact List.self_eq_append_right.mp h3
          rw [this] at h4
          simp at h4
  refine ⟨main.1, main.2.1, main.2.2.1, fun h => by rw [zp h]; rfl, fun h => by rw [zn h]; rfl,
    fun h => by rw [zm h.1 h.2], main.2.2.2, ?_⟩
  intro ex et ett
  obtain ⟨m1, m2, m3, -⟩ := main
  rw [ex, et] at m1 m2 m3
  rw [ett] at m2 m3
  refine ⟨m1.trans (js_fin_lt_fin _ _), m2.trans (js_fin_lt_fin _ _), m3.trans ?_⟩
  rw [js_fin_le_fin, js_fin_le_fin]

theorem C8_click_thirds_witness :
    fiveTouched.nav.isAnimating = false ∧ (0 : ℚ) < 300 ∧
    (click fiveTouched false 10 0 300).navCalls = [.previous] ∧
    (click fiveTouched false 250 0 300).navCalls = [.next] ∧
    (click fiveTouched false 150 0 300).navCalls = [] ∧
    (click fiveTouched false near340Thirds 0 340).navCalls = [] :=
  ⟨by decide, by norm_num,
    (C8_click_thirds fiveTouched 10 0 300 (by decide) (by norm_num)).1.mpr (by
      rw [click_on_width_300.1, click_on_width_300.2.2.2.1]
      exact (js_fin_lt_fin _ _).mpr (by norm_num)),
    (C8_click_thirds fiveTouched 250 0 300 (by decide) (by norm_num)).2.1.mpr (by
      rw [click_on_width_300.2.1, click_on_width_300.2.2.2.2]
      exact (js_fin_lt_fin _ _).mpr (by norm_num)),
    (C8_click_thirds fiveTouched 150 0 300 (by decide) (by norm_num)).2.2.1.mpr (by
      rw [click_on_width_300.2.2.1, click_on_width_300.2.2.2.2, click_on_width_300.2.2.2.1]
      exact ⟨(js_fin_le_fin _ _).mpr (by norm_num), (js_fin_le_fin _ _).mpr (by norm_num)⟩),
    (C8_click_thirds fiveTouched near340Thirds 0 340 (by decide) (by norm_num)).2.2.1.mpr (by
      rw [click_at_near340Thirds.1, click_at_near340Thirds.2.2, click_at_near340Thirds.2.1]
      exact ⟨(js_fin_le_fin _ _).mpr (le_refl _),
        (js_fin_le_fin _ _).mpr (by norm_num [near340Thirds])⟩)⟩

/-- C8 as stated, with exact thirds, fails in both directions.  On a book of
width `340` a click at the double nearest to `340/3`, which lies below `340/3`,
is in the exact left third, yet the handler, whose `w / 3` is that same double,
makes no call.  On a book of width `100` a click at twice the double nearest to
`100/3`, which lies above `200/3`, is in the exact right third, yet the handler,
whose `thirdWidth * 2` is that same double, makes no call. -/
theorem C8_exact_thirds_counterexample :
    fiveTouched.nav.isAnimating = false ∧
    (0 : ℚ) < 340 ∧ round64 near340Thirds = .fin near340Thirds ∧
    near340Thirds - 0 < 340 / 3 ∧
    (click fiveTouched false near340Thirds 0 340).navCalls = [] ∧
    (0 : ℚ) < 100 ∧ round64 (near100Thirds * 2) = .fin (near100Thirds * 2) ∧
    near100Thirds * 2 - 0 > 2 * 100 / 3 ∧
    (click fiveTouched false (near100Thirds * 2) 0 100).navCalls = [] := by
  have z1 := (click_zones fiveTouched near340Thirds 0 340 (by decide) (by norm_num)).2.2
    (by
      rw [click_at_near340Thirds.1, click_at_near340Thirds.2.1]
      exact (js_fin_le_fin _ _).mpr (le_refl _))
    (by
      rw [click_at_near340Thirds.1, click_at_near340Thirds.2.2]
      exact (js_fin_le_fin _ _).mpr (by norm_num [near340Thirds]))
  have z2 := (click_zones fiveTouched (near100Thirds * 2) 0 100 (by decide) (by norm_num)).2.2
    (by
      rw [click_at_twice_near100Thirds.1, click_at_twice_near100Thirds.2.1]
      exact (js_fin_le_fin _ _).mpr (by norm_num [near100Thirds]))
    (by
      rw [click_at_twice_near100Thirds.1, click_at_twice_near100Thirds.2.2]
      exact (js_fin_le_fin _ _).mpr (le_refl _))
  refine ⟨by decide, by norm_num, round64_near340Thirds, by norm_num [near340Thirds], ?_,
    by norm_num, round64_twice_near100Thirds, by norm_num [near100Thirds], ?_⟩
  · rw [z1]; rfl
  · rw [z2]; rfl

/-- C9: for every accepted `goToPage t` from a settled reachable state with
`currentPage = c`: after any events that follow the acceptance without a
reconciliation timer firing (calls, the firing of the flip timer or of other
timers, time passing), `currentPage` is still `c`, `isAnimating` is true and the
reconciliation towards `t` is still pending; when the reconciliation timer then
fires, that one step sets `currentPage` to `t` and clears `isAnimating`; and
letting the pending timers fire from any such state ends in that settled
state. -/
theorem C9_currentPage_changes_at_reconciliation (markup : List Page)
    (ins : Option Instruction) (v : Bool) (hN : 1 ≤ markup.length) (es : List Event)
    (s : State) (hs : s = run (initialState markup ins v) es)
    (ha : s.isAnimating = false)
    (t : Int) (ht0 : 0 ≤ t) (htN : t < (markup.length : Int)) (hne : t ≠ s.currentPage)
    (fs : List Event) (hmid : midFlight (goToPage s t) fs = true) :
    (run (goToPage s t) fs).currentPage = s.currentPage ∧
    (run (goToPage s t) fs).isAnimating = true ∧
    Callback.reconcile t ∈ (run (goToPage s t) fs).timers.map Timer.callback ∧
    (reconcileDue (run (goToPage s t) fs) = true →
      (fire (run (goToPage s t) fs)).currentPage = t ∧
      (fire (run (goToPage s t) fs)).isAnimating = false) ∧
    (settle (run (goToPage s t) fs)).currentPage = t ∧
    (settle (run (goToPage s t) fs)).isAnimating = false := by
  have hi : Inv s := by rw [hs]; exact inv_run _ es (inv_initialState markup ins v hN)
  have hT : s.totalPages = (markup.length : Int) := by
    rw [hs, run_totalPages, initialState_totalPages]
  obtain ⟨h1, ⟨f, hf, h2⟩, -⟩ :=
    goToPage_accepted s t ha hi.lower hi.upper ht0 (by omega) hne (hi.settled ha)
  obtain ⟨k1, k2, k3, -, -⟩ :=
    midFlight_run (goToPage s t) t h1 (Or.inr ⟨f, hf, h2⟩) fs hmid
  have hmem : Callback.reconcile t ∈ (run (goToPage s t) fs).timers.map Timer.callback := by
    have : Callback.reconcile t ∈ navCallbacks (run (goToPage s t) fs).timers := by
      rcases k3 with k3 | ⟨g, -, k3⟩ <;> rw [k3] <;> simp
    unfold navCallbacks at this
    exact (List.mem_filter.mp this).1
  obtain ⟨m1, m2, -, -, -⟩ := settle_spec _ t k1 k3
  refine ⟨by rw [k2, goToPage_currentPage], k1, hmem, ?_, m2, m1⟩
  intro hd
  rcases fire_inFlight _ t k1 k3 with ⟨h0, -⟩ | ⟨-, a1, a2, -, -, -⟩
  · rw [hd] at h0; cases h0
  · exact ⟨a2, a1⟩

theorem C9_currentPage_changes_at_reconciliation_witness :
    1 ≤ fivePages.length ∧ fiveStart.isAnimating = false ∧
    midFlight (goToPage fiveStart 3) [.elapse 600, .fire, .next] = true ∧
    (∃ p, (run (goToPage fiveStart 3) [.elapse 600, .fire, .next]).pages[3]? = some p ∧
      p.isActive) ∧
    (run (goToPage fiveStart 3) [.elapse 600, .fire, .next]).currentPage = 0 ∧
    (run (goToPage fiveStart 3) [.elapse 600, .fire, .next]).isAnimating = true ∧
    (fire (run (goToPage fiveStart 3) [.elapse 600, .fire, .next])).currentPage = 3 ∧
    (fire (run (goToPage fiveStart 3) [.elapse 600, .fire, .next])).isAnimating = false :=
  have h := C9_currentPage_changes_at_reconciliation fivePages (some ⟨false, false⟩) true
    (by decide) [] fiveStart rfl (by decide) 3 (by decide) (by decide) (by decide)
    [.elapse 600, .fire, .next] (by decide)
  ⟨by decide, by decide, by decide, by decide, h.1, h.2.1,
    (h.2.2.2.1 (by decide)).1, (h.2.2.2.1 (by decide)).2⟩

/-- C10: for every markup of `N ≥ 1` pages without stale transition classes and
every settled reachable state with `currentPage = c < N - 1` (so `N ≥ 2`):
`nextPage()`, the firing of its timers, `prevPage()` and the firing of its timers
lead through `currentPage = c + 1` back to `currentPage = c`, `isAnimating`
false, the same classes (and z-index) on every page, the same page indicator,
the same disabled flags and the same labels of both buttons.  Symmetrically, from
`c > 0`, `prevPage()` followed by `nextPage()` leads through `c - 1` back to the
same. -/
theorem C10_next_previous_round_trip (markup : List Page) (ins : Option Instruction)
    (v : Bool) (hN : 1 ≤ markup.length) (hm : CleanMarkup markup) (es : List Event)
    (s : State) (hs : s = run (initialState markup ins v) es)
    (ha : s.isAnimating = false) :
    (s.currentPage < (markup.length : Int) - 1 →
      (settle (nextPage s)).currentPage = s.currentPage + 1 ∧
      (settle (nextPage s)).isAnimating = false ∧
      (settle (prevPage (settle (nextPage s)))).currentPage = s.currentPage ∧
      (settle (prevPage (settle (nextPage s)))).isAnimating = false ∧
      (settle (prevPage (settle (nextPage s)))).pages = s.pages ∧
      (settle (prevPage (settle (nextPage s)))).indicator = s.indicator ∧
      (settle (prevPage (settle (nextPage s)))).prevDisabled = s.prevDisabled ∧
      (settle (prevPage (settle (nextPage s)))).nextDisabled = s.nextDisabled ∧
      (settle (prevPage (settle (nextPage s)))).prevAria = s.prevAria ∧
      (settle (prevPage (settle (nextPage s)))).nextAria = s.nextAria) ∧
    (s.currentPage > 0 →
      (settle (prevPage s)).currentPage = s.currentPage - 1 ∧
      (settle (prevPage s)).isAnimating = false ∧
      (settle (nextPage (settle (prevPage s)))).currentPage = s.currentPage ∧
      (settle (nextPage (settle (prevPage s)))).isAnimating = false ∧
      (settle (nextPage (settle (prevPage s)))).pages = s.pages ∧
      (settle (nextPage (settle (prevPage s)))).indicator = s.indicator ∧
      (settle (nextPage (settle (prevPage s)))).prevDisabled = s.prevDisabled ∧
      (settle (nextPage (settle (prevPage s)))).nextDisabled = s.nextDisabled ∧
      (settle (nextPage (settle (prevPage s)))).prevAria = s.prevAria ∧
      (settle (nextPage (settle (prevPage s)))).nextAria = s.nextAria) := by
  have hi : Inv s := by rw [hs]; exact inv_run _ es (inv_initialState markup ins v hN)
  have hp : reconcilePages s.currentPage s.pages = s.pages := by
    have := pagesSettled_run _ es (inv_initialState markup ins v hN)
      (pagesSettled_initialState markup ins v hm)
    rw [← hs] at this
    exact this ha
  have hT : s.totalPages = (markup.length : Int) := by
    rw [hs, run_totalPages, initialState_totalPages]
  constructor
  · intro hc
    have hn : nextPage s = goToPage s (s.currentPage + 1) := by
      unfold nextPage
      rw [if_pos ⟨by omega, ha⟩]
    obtain ⟨k1, k2, k3, k4, k5, k6⟩ :=
      transition_settles s (s.currentPage + 1) ha hi.lower hi.upper (by have := hi.lower; omega)
        (by omega) (by omega) (hi.settled ha)
    rw [← hn] at k1 k2 k3 k4 k5 k6
    have hb : prevPage (settle (nextPage s)) =
        goToPage (settle (nextPage s)) s.currentPage := by
      unfold prevPage
      rw [if_pos ⟨by rw [k2]; have := hi.lower; omega, k1⟩, k2]
      congr 1
      omega
    obtain ⟨m1, m2, m3, m4, m5, m6⟩ :=
      transition_settles (settle (nextPage s)) s.currentPage k1
        (by rw [k2]; have := hi.lower; omega) (by rw [k2, k6]; omega) hi.lower
        (by rw [k6]; exact hi.upper) (by rw [k2]; omega) k5
    rw [← hb] at m1 m2 m3 m4 m5 m6
    have hpages : (settle (prevPage (settle (nextPage s)))).pages = s.pages := by
      rw [m3, k3]
      rw [reconcilePages_congr s.currentPage _ s.pages (reconcilePages_zIndex _ _)]
      exact hp
    obtain ⟨e1, e2, e3, e4, e5⟩ := display_eq_of_synced _ s m4 hi.display m2 (by rw [m6, k6])
    exact ⟨k2, k1, m2, m1, hpages, e1, e2, e3, e4, e5⟩
  · intro hc
    have hn : prevPage s = goToPage s (s.currentPage - 1) := by
      unfold prevPage
      rw [if_pos ⟨hc, ha⟩]
    obtain ⟨k1, k2, k3, k4, k5, k6⟩ :=
      transition_settles s (s.currentPage - 1) ha hi.lower hi.upper (by omega)
        (by have := hi.upper; omega) (by omega) (hi.settled ha)
    rw [← hn] at k1 k2 k3 k4 k5 k6
    have hb : nextPage (settle (prevPage s)) =
        goToPage (settle (prevPage s)) s.currentPage := by
      unfold nextPage
      rw [if_pos ⟨by rw [k2, k6]; have := hi.upper; omega, k1⟩, k2]
      congr 1
      omega
    obtain ⟨m1, m2, m3, m4, m5, m6⟩ :=
      transition_settles (settle (prevPage s)) s.currentPage k1
        (by rw [k2]; omega) (by rw [k2, k6]; have := hi.upper; omega) hi.lower
        (by rw [k6]; exact hi.upper) (by rw [k2]; omega) k5
    rw [← hb] at m1 m2 m3 m4 m5 m6
    have hpages : (settle (nextPage (settle (prevPage s)))).pages = s.pages := by
      rw [m3, k3]
      rw [reconcilePages_congr s.currentPage _ s.pages (reconcilePages_zIndex _ _)]
      exact hp
    obtain ⟨e1, e2, e3, e4, e5⟩ := display_eq_of_synced _ s m4 hi.display m2 (by rw [m6, k6])
    exact ⟨k2, k1, m2, m1, hpages, e1, e2, e3, e4, e5⟩

theorem C10_next_previous_round_trip_witness :
    1 ≤ fivePages.length ∧ CleanMarkup fivePages ∧
    (run fiveStart [.goTo 2, .fire, .fire]).isAnimating = false ∧
    (run fiveStart [.goTo 2, .fire, .fire]).currentPage = 2 ∧
    (settle (nextPage (run fiveStart [.goTo 2, .fire, .fire]))).currentPage = 2 + 1 ∧
    (settle (prevPage (settle (nextPage (run fiveStart [.goTo 2, .fire, .fire]))))).pages =
      (run fiveStart [.goTo 2, .fire, .fire]).pages ∧
    (settle (prevPage (run fiveStart [.goTo 2, .fire, .fire]))).currentPage = 2 - 1 ∧
    (settle (nextPage (settle (prevPage (run fiveStart [.goTo 2, .fire, .fire]))))).pages =
      (run fiveStart [.goTo 2, .fire, .fire]).pages :=
  have h := C10_next_previous_round_trip fivePages (some ⟨false, false⟩) true (by decide)
    (by decide) [.goTo 2, .fire, .fire] (run fiveStart [.goTo 2, .fire, .fire]) rfl (by decide)
  ⟨by decide, by decide, by decide, by decide,
    (h.1 (by decide)).1, (h.1 (by decide)).2.2.2.2.1,
    (h.2 (by decide)).1, (h.2 (by decide)).2.2.2.2.1⟩

end BirthdayCard
